import Mathlib

/-!
# no-OS: tinyiiod ADC attribute bridge and Xilinx UART driver

A shallow embedding of `projects/drivers/tinyiiod/tinyiiod_adc.c` and
`projects/drivers/xilinx_platform/uart.c`, and the properties of the two drivers.

Conventions of the embedding:
* machine integers are `Int`/`Nat`; a conversion to a `w`-bit type is an explicit wrap;
* a `float` is an exact rational, an infinity or a NaN, and every `float` operation rounds
  its exact result to binary32, to nearest with ties to even;
* a C character buffer is a `List Char`, a store outside the list is dropped;
* a function with out-parameters returns them next to its status;
* the capabilities `axi_adc_*` and `fifo_insert` are parameters; the outcomes of the
  configuration calls of `uart_init` are inputs; what the driver leaves in the UART and in
  the interrupt controller is a record `Hw`;
* a loop that waits is run on fuel, and `none` stands for a wait that did not end.
-/

namespace NoOS

/-! ## Machine integers -/

/-- Reinterpretation of an integer as a `w`-bit two's-complement signed value. -/
def wrapSigned (w : Nat) (x : Int) : Int :=
  if x % (2 : Int) ^ w < (2 : Int) ^ (w - 1) then x % (2 : Int) ^ w
  else x % (2 : Int) ^ w - (2 : Int) ^ w

/-- The values of an `int32_t`. -/
def isInt32 (x : Int) : Prop := -(2 : Int) ^ 31 ≤ x ∧ x < (2 : Int) ^ 31

instance (x : Int) : Decidable (isInt32 x) := by
  unfold isInt32; infer_instance

/-- C `labs` on a `long` of `lw` bits: the magnitude, wrapped into the type. -/
def labs (lw : Nat) (x : Int) : Int := wrapSigned lw |x|

/-! ## `printf` conversions and `snprintf` -/

/-- The terminating null character. -/
def NUL : Char := Char.ofNat 0

/-- Unsigned decimal digits, most significant first. -/
def decimal (n : Nat) : List Char := Nat.toDigits 10 n

/-- Digits padded on the left with zeros to at least `p` digits (a `printf` precision). -/
def zeroPad (p : Nat) (ds : List Char) : List Char :=
  List.replicate (p - ds.length) '0' ++ ds

/-- Conversion `%i` of a signed argument. -/
def fmt_i (x : Int) : List Char :=
  if x < 0 then '-' :: decimal x.natAbs else decimal x.natAbs

/-- Conversion `%.6i` of a signed argument: at least six digits after the sign. -/
def fmt_i_prec6 (x : Int) : List Char :=
  if x < 0 then '-' :: zeroPad 6 (decimal x.natAbs) else zeroPad 6 (decimal x.natAbs)

/-- Conversion `%PRIi32`: the argument slot is read as an `int32_t`. -/
def fmt_PRIi32 (x : Int) : List Char := fmt_i (wrapSigned 32 x)

/-- Conversion `%.6PRIi32`: the argument slot is read as an `int32_t`. -/
def fmt_PRIi32_prec6 (x : Int) : List Char := fmt_i_prec6 (wrapSigned 32 x)

/-- Conversion `%PRIi64`: the argument slot is read as an `int64_t`. -/
def fmt_PRIi64 (x : Int) : List Char := fmt_i (wrapSigned 64 x)

/-- Store the characters `bs` into `buf` from index `off` on. -/
def storeAt (buf : List Char) (off : Nat) : List Char → List Char
  | [] => buf
  | b :: bs => storeAt (buf.set off b) (off + 1) bs

/-- C `snprintf(&buf[off], n, ...)` where the format expands to `s`: at most `n - 1`
characters of `s` and a terminator are stored (nothing when `n = 0`), and the length of
the whole of `s` is returned. -/
def snprintf (buf : List Char) (off n : Nat) (s : List Char) : Int × List Char :=
  ((s.length : Int), if n = 0 then buf else storeAt buf off (s.take (n - 1) ++ [NUL]))

/-! ## The ADC capability and the attribute accessors -/

/-- Modelled from the spec: the channel properties handed to an accessor
(`struct channel_info`, declared outside the sources): the index of the input line. -/
structure channel_info where
  ch_num : Nat
deriving DecidableEq, Repr

/-- The `axi_adc_*` calibration interface over a hardware state `σ`. A getter returns its
status together with the contents of its out-variables after the call. -/
structure AxiAdc (σ : Type) where
  axi_adc_get_calib_phase : σ → Nat → Int × Int × Int
  axi_adc_get_calib_bias : σ → Nat → Int × Int
  axi_adc_get_calib_scale : σ → Nat → Int × Int × Int
  axi_adc_get_sampling_freq : σ → Nat → Int × Nat
  axi_adc_set_calib_phase : σ → Nat → Int → Int → Int × σ
  axi_adc_set_calib_bias : σ → Nat → Int → Int → Int × σ
  axi_adc_set_calib_scale : σ → Nat → Int → Int → Int × σ

/-- The errno value `ENODEV`. -/
def ENODEV : Int := 19

/-- Accessor `get_cf_calibphase`: status or length, and the buffer after the call. -/
def get_cf_calibphase {σ : Type} (lw : Nat) (adc : AxiAdc σ) (rx_adc : σ)
    (buf : List Char) (len : Nat) (channel : channel_info) : Int × List Char :=
  let r := adc.axi_adc_get_calib_phase rx_adc channel.ch_num
  let ret := r.1
  let val := r.2.1
  let val2 := r.2.2
  if ret < 0 then (ret, buf)
  else
    let p : Nat × List Char :=
      if val2 < 0 ∧ val ≥ 0 then (1, (snprintf buf 0 len ['-']).2) else (0, buf)
    let s := snprintf p.2 p.1 len
      (fmt_PRIi32 val ++ '.' :: fmt_PRIi32_prec6 (labs lw val2))
    ((p.1 : Int) + s.1, s.2)

/-- Accessor `get_cf_calibbias`: the status of the hardware call is not looked at. -/
def get_cf_calibbias {σ : Type} (adc : AxiAdc σ) (rx_adc : σ)
    (buf : List Char) (len : Nat) (channel : channel_info) : Int × List Char :=
  let r := adc.axi_adc_get_calib_bias rx_adc channel.ch_num
  let val := r.2
  snprintf buf 0 len (fmt_PRIi32 val)

/-- Accessor `get_cf_calibscale`. -/
def get_cf_calibscale {σ : Type} (lw : Nat) (adc : AxiAdc σ) (rx_adc : σ)
    (buf : List Char) (len : Nat) (channel : channel_info) : Int × List Char :=
  let r := adc.axi_adc_get_calib_scale rx_adc channel.ch_num
  let ret := r.1
  let val := r.2.1
  let val2 := r.2.2
  if ret < 0 then (ret, buf)
  else
    let p : Nat × List Char :=
      if val2 < 0 ∧ val ≥ 0 then (1, (snprintf buf 0 len ['-']).2) else (0, buf)
    let s := snprintf p.2 p.1 len
      (fmt_PRIi32 val ++ '.' :: fmt_PRIi32_prec6 (labs lw val2))
    ((p.1 : Int) + s.1, s.2)

/-- Accessor `get_cf_samples_pps`. -/
def get_cf_samples_pps (buf : List Char) (_len : Nat) (_channel : channel_info) :
    Int × List Char :=
  (-ENODEV, buf)

/-- Accessor `get_cf_sampling_frequency`: the `uint64_t` is printed with `PRIi64`. -/
def get_cf_sampling_frequency {σ : Type} (adc : AxiAdc σ) (rx_adc : σ)
    (buf : List Char) (len : Nat) (channel : channel_info) : Int × List Char :=
  let r := adc.axi_adc_get_sampling_freq rx_adc channel.ch_num
  let ret := r.1
  let sampling_freq := r.2
  if ret < 0 then (ret, buf)
  else snprintf buf 0 len (fmt_PRIi64 (sampling_freq : Int))

/-! ### Write accessors -/

/-- C `isspace` in the "C" locale. -/
def isspace (c : Char) : Bool := c = ' ' || (9 ≤ c.toNat && c.toNat ≤ 13)

/-- The value of a decimal digit character. -/
def digitValue (c : Char) : Nat := c.toNat - 48

/-- The longest run of decimal digits at the front of a text: its value on top of `acc`,
the number of digits on top of `k`, and the rest of the text. -/
def scanDigits : List Char → Nat → Nat → Nat × Nat × List Char
  | [], acc, k => (acc, k, [])
  | c :: cs, acc, k =>
    if c.isDigit then scanDigits cs (acc * 10 + digitValue c) (k + 1) else (acc, k, c :: cs)

/-! ### Single precision -/

/-- A value of the C type `float` (IEEE 754 binary32): a finite number, an infinity with
its sign, or a NaN. The sign of a zero is not kept: nothing the accessors compute from a
zero depends on it. -/
inductive F32 where
  | finite (q : ℚ)
  | inf (neg : Bool)
  | nan
deriving DecidableEq

/-- The power `2 ^ e` for an integer exponent. -/
def pow2 (e : Int) : ℚ :=
  if 0 ≤ e then ((2 ^ e.toNat : Nat) : ℚ) else 1 / ((2 ^ (-e).toNat : Nat) : ℚ)

/-- The number of halvings that bring `n` below 2, on `fuel` rounds. -/
def log2Fuel : Nat → Nat → Nat
  | 0, _ => 0
  | fuel + 1, n => if n < 2 then 0 else log2Fuel fuel (n / 2) + 1

/-- The binary logarithm of a natural number, rounded down (0 for 0). -/
def ilog2 (n : Nat) : Nat := log2Fuel n n

/-- The binary exponent of a positive rational `a`: the `e` with `2 ^ e ≤ a < 2 ^ (e + 1)`. -/
def floorLog2 (a : ℚ) : Int :=
  if pow2 ((ilog2 a.num.natAbs : Int) - (ilog2 a.den : Int)) ≤ a then
    (ilog2 a.num.natAbs : Int) - (ilog2 a.den : Int)
  else (ilog2 a.num.natAbs : Int) - (ilog2 a.den : Int) - 1

/-- The nearest integer, a tie going to the even one. -/
def roundHalfEven (q : ℚ) : Int :=
  if q - (Rat.floor q : ℚ) < 1 / 2 then Rat.floor q
  else if 1 / 2 < q - (Rat.floor q : ℚ) then Rat.floor q + 1
  else if Rat.floor q % 2 = 0 then Rat.floor q else Rat.floor q + 1

/-- Rounding of an exact value to `float`, to nearest with ties to even: 24 significant
bits, least exponent -126 with gradual underflow, and an infinity when the rounded
magnitude reaches `2 ^ 128`. -/
def roundF32 (q : ℚ) : F32 :=
  if q = 0 then .finite 0
  else
    let a : ℚ := if q < 0 then -q else q
    let c : Int := max (floorLog2 a) (-126) - 23
    let r : ℚ := (roundHalfEven (a / pow2 c) : ℚ) * pow2 c
    if pow2 128 ≤ r then .inf (decide (q < 0)) else .finite (if q < 0 then -r else r)

/-- The product of two `float` values, as the `float` multiplication gives it. -/
def F32.mul : F32 → F32 → F32
  | .finite a, .finite b => roundF32 (a * b)
  | .finite a, .inf t => if a = 0 then .nan else .inf (decide (a < 0) != t)
  | .inf s, .finite b => if b = 0 then .nan else .inf (s != decide (b < 0))
  | .inf s, .inf t => .inf (s != t)
  | _, _ => .nan

/-- The conversion of an `int` to `float`. -/
def f32_of_int (n : Int) : F32 := roundF32 (n : ℚ)

/-- The integer part of an exact value: the fractional part is discarded (truncation
toward zero). -/
def truncToInt (q : ℚ) : Int := if 0 ≤ q then Rat.floor q else -Rat.floor (-q)

/-- The conversion `(int32_t)x` of a `float`: the fractional part is discarded. A value
whose integer part does not fit, an infinity or a NaN has no result defined by C; the
conversion instruction of the ARM cores this driver runs on gives the nearest bound for
the former two and 0 for a NaN, and so does the model. -/
def f32_to_int32 : F32 → Int
  | .finite q =>
    if truncToInt q < -2147483648 then -2147483648
    else if 2147483647 < truncToInt q then 2147483647
    else truncToInt q
  | .inf neg => if neg then -2147483648 else 2147483647
  | .nan => 0

/-- C `tolower` in the "C" locale. -/
def tolower (c : Char) : Char :=
  if 65 ≤ c.toNat ∧ c.toNat ≤ 90 then Char.ofNat (c.toNat + 32) else c

/-- Whether the text starts with the lower-case word `w`, whatever the case of the text. -/
def matchWord : List Char → List Char → Bool
  | [], _ => true
  | _ :: _, [] => false
  | w :: ws, c :: cs => if tolower c = w then matchWord ws cs else false

/-- The value of a hexadecimal digit character, if it is one. -/
def hexDigitValue (c : Char) : Option Nat :=
  if c.isDigit then some (c.toNat - 48)
  else if 97 ≤ (tolower c).toNat ∧ (tolower c).toNat ≤ 102 then some ((tolower c).toNat - 87)
  else none

/-- The longest run of hexadecimal digits at the front of a text: its value on top of
`acc`, the number of digits on top of `k`, and the rest of the text. -/
def scanHexDigits : List Char → Nat → Nat → Nat × Nat × List Char
  | [], acc, k => (acc, k, [])
  | c :: cs, acc, k =>
    match hexDigitValue c with
    | some d => scanHexDigits cs (acc * 16 + d) (k + 1)
    | none => (acc, k, c :: cs)

/-- An optional sign at the front of a text: whether it is a minus, and the rest. -/
def splitSign (s : List Char) : Bool × List Char :=
  match s with
  | c :: r => if c = '-' then (true, r) else if c = '+' then (false, r) else (false, s)
  | [] => (false, s)

/-- The exponent part at the front of a text: the marker (`e` or `p`, in either case), an
optional sign and at least one decimal digit; 0 when the text does not start with one. -/
def scanExponent (marker : Char) (s : List Char) : Int :=
  match s with
  | c :: r =>
    if tolower c = marker then
      if (scanDigits (splitSign r).2 0 0).2.1 = 0 then 0
      else if (splitSign r).1 then -((scanDigits (splitSign r).2 0 0).1 : Int)
      else ((scanDigits (splitSign r).2 0 0).1 : Int)
    else 0
  | [] => 0

/-- The value `m * b ^ e` for an integer exponent. -/
def scaleBy (b : Nat) (m : ℚ) (e : Int) : ℚ :=
  if 0 ≤ e then m * ((b ^ e.toNat : Nat) : ℚ) else m / ((b ^ (-e).toNat : Nat) : ℚ)

/-- The exact value of the decimal floating constant at the front of a text: digits with
an optional point, then an optional exponent; 0 when there is no digit. -/
def decimalNumber (s : List Char) : ℚ :=
  let ip := scanDigits s 0 0
  let fp : Nat × Nat × List Char :=
    match ip.2.2 with
    | c :: r => if c = '.' then scanDigits r 0 0 else (0, 0, ip.2.2)
    | [] => (0, 0, [])
  if ip.2.1 + fp.2.1 = 0 then 0
  else
    scaleBy 10 ((ip.1 : ℚ) + (fp.1 : ℚ) / ((10 ^ fp.2.1 : Nat) : ℚ)) (scanExponent 'e' fp.2.2)

/-- The exact value of the hexadecimal floating constant at the front of a text: `0x`,
hexadecimal digits with an optional point, then an optional binary exponent; `none` when
the text does not start with one. -/
def hexNumber (s : List Char) : Option ℚ :=
  match s with
  | z :: x :: r =>
    if z = '0' ∧ tolower x = 'x' then
      let ip := scanHexDigits r 0 0
      let fp : Nat × Nat × List Char :=
        match ip.2.2 with
        | c :: r2 => if c = '.' then scanHexDigits r2 0 0 else (0, 0, ip.2.2)
        | [] => (0, 0, [])
      if ip.2.1 + fp.2.1 = 0 then none
      else
        some (scaleBy 2 ((ip.1 : ℚ) + (fp.1 : ℚ) / ((16 ^ fp.2.1 : Nat) : ℚ))
          (scanExponent 'p' fp.2.2))
    else none
  | _ => none

/-- The C library `strtof`: white space, an optional sign, then `inf` or `infinity`, or
`nan`, or a hexadecimal or a decimal floating constant, in either case; the exact value is
rounded to `float`. A text without a number converts to zero. -/
def strtof (s : List Char) : F32 :=
  let sg := splitSign (s.dropWhile isspace)
  if matchWord ['i', 'n', 'f'] sg.2 then .inf sg.1
  else if matchWord ['n', 'a', 'n'] sg.2 then .nan
  else
    let m : ℚ :=
      match hexNumber sg.2 with
      | some v => v
      | none => decimalNumber sg.2
    roundF32 (if sg.1 then -m else m)

/-- Modelled from the spec: `read_value`, which the repository keeps outside
`tinyiiod_adc.c`, parses the text as an integer: white space, an optional sign, decimal
digits. -/
def read_value (s : List Char) : Int :=
  let s1 := s.dropWhile isspace
  let sg : Bool × List Char :=
    match s1 with
    | c :: r => if c = '-' then (true, r) else if c = '+' then (false, r) else (false, s1)
    | [] => (false, s1)
  let ip := scanDigits sg.2 0 0
  if sg.1 then -(ip.1 : Int) else (ip.1 : Int)

/-- Accessor `set_cf_calibphase`: `float calib = strtof(buf, NULL)`,
`int32_t val = (int32_t)calib` and `int32_t val2 = (int32_t)(calib * 1000000) % 1000000`,
the product being a `float` product with the constant converted to `float`; the status of
the hardware call is not looked at. -/
def set_cf_calibphase {σ : Type} (adc : AxiAdc σ) (rx_adc : σ)
    (buf : List Char) (len : Nat) (channel : channel_info) : Int × σ :=
  let calib : F32 := strtof buf
  let val : Int := f32_to_int32 calib
  let val2 : Int :=
    wrapSigned 32 ((f32_to_int32 (F32.mul calib (f32_of_int 1000000))).tmod 1000000)
  let r := adc.axi_adc_set_calib_phase rx_adc channel.ch_num val val2
  ((len : Int), r.2)

/-- Accessor `set_cf_calibbias`. -/
def set_cf_calibbias {σ : Type} (adc : AxiAdc σ) (rx_adc : σ)
    (buf : List Char) (len : Nat) (channel : channel_info) : Int × σ :=
  let val : Int := wrapSigned 32 (read_value buf)
  let r := adc.axi_adc_set_calib_bias rx_adc channel.ch_num val 0
  ((len : Int), r.2)

/-- Accessor `set_cf_calibscale`: the same computation in `float` as in
`set_cf_calibphase`. -/
def set_cf_calibscale {σ : Type} (adc : AxiAdc σ) (rx_adc : σ)
    (buf : List Char) (len : Nat) (channel : channel_info) : Int × σ :=
  let calib : F32 := strtof buf
  let val : Int := f32_to_int32 calib
  let val2 : Int :=
    wrapSigned 32 ((f32_to_int32 (F32.mul calib (f32_of_int 1000000))).tmod 1000000)
  let r := adc.axi_adc_set_calib_scale rx_adc channel.ch_num val val2
  ((len : Int), r.2)

/-- Accessor `set_cf_samples_pps`. -/
def set_cf_samples_pps {σ : Type} (rx_adc : σ) (_buf : List Char) (_len : Nat)
    (_channel : channel_info) : Int × σ :=
  (-ENODEV, rx_adc)

/-- Accessor `set_cf_sampling_frequency`. -/
def set_cf_sampling_frequency {σ : Type} (rx_adc : σ) (_buf : List Char) (_len : Nat)
    (_channel : channel_info) : Int × σ :=
  (-ENODEV, rx_adc)

/-! ### Stub hardware -/

/-- A number that `float` holds exactly: an integer of magnitude below `2 ^ 24` times a
power of two whose exponent lies between -149 and 104. -/
def IsBinary32 (q : ℚ) : Prop :=
  ∃ (m k : Int), m.natAbs < 2 ^ 24 ∧ -149 ≤ k ∧ k ≤ 104 ∧ q = (m : ℚ) * (2 : ℚ) ^ k

/-- A hardware whose phase and scale getters return the fixed triple `(ret, val, val2)`. -/
def constAdc (ret val val2 : Int) (freq : Nat) : AxiAdc Unit where
  axi_adc_get_calib_phase := fun _ _ => (ret, val, val2)
  axi_adc_get_calib_bias := fun _ _ => (ret, val)
  axi_adc_get_calib_scale := fun _ _ => (ret, val, val2)
  axi_adc_get_sampling_freq := fun _ _ => (ret, freq)
  axi_adc_set_calib_phase := fun s _ _ _ => (ret, s)
  axi_adc_set_calib_bias := fun s _ _ _ => (ret, s)
  axi_adc_set_calib_scale := fun s _ _ _ => (ret, s)

/-- The text the sign policy asks for: a minus sign when the fractional part is negative
and the integer part is not, the signed integer part, a point, and the magnitude of the
fractional part on at least six digits. -/
def calibText (val val2 : Int) : List Char :=
  (if val2 < 0 ∧ val ≥ 0 then ['-'] else []) ++
    (fmt_i val ++ '.' :: zeroPad 6 (decimal val2.natAbs))

/-- The accessor an `exec` pointer of a table designates. -/
inductive Accessor where
  | get_cf_calibphase
  | get_cf_calibbias
  | get_cf_calibscale
  | get_cf_samples_pps
  | get_cf_sampling_frequency
  | set_cf_calibphase
  | set_cf_calibbias
  | set_cf_calibscale
  | set_cf_samples_pps
  | set_cf_sampling_frequency
deriving DecidableEq, Repr

/-- Modelled from the spec: the table entry type `attrtibute_map` of the initialisers, whose
declaration is in `tinyiiod_adc.h`: a name, an accessor, and the tables of the input and of
the output channels; a missing initialiser is null. A table is the list of its entries,
sentinel included. -/
inductive attrtibute_map where
  | mk (attr_name : Option String) (exec : Option Accessor)
      (map_in : Option (List attrtibute_map)) (map_out : Option (List attrtibute_map))

/-- Field `attr_name`. -/
def attrtibute_map.attr_name : attrtibute_map → Option String
  | .mk n _ _ _ => n

/-- Field `exec`. -/
def attrtibute_map.exec : attrtibute_map → Option Accessor
  | .mk _ e _ _ => e

/-- Field `map_in`. -/
def attrtibute_map.map_in : attrtibute_map → Option (List attrtibute_map)
  | .mk _ _ m _ => m

/-- Field `map_out`. -/
def attrtibute_map.map_out : attrtibute_map → Option (List attrtibute_map)
  | .mk _ _ _ m => m

/-- Table `cf_voltage_read_attrtibute_map`. -/
def cf_voltage_read_attrtibute_map : List attrtibute_map :=
  [ .mk (some "calibphase") (some .get_cf_calibphase) none none,
    .mk (some "calibbias") (some .get_cf_calibbias) none none,
    .mk (some "calibscale") (some .get_cf_calibscale) none none,
    .mk (some "samples_pps") (some .get_cf_samples_pps) none none,
    .mk (some "sampling_frequency") (some .get_cf_sampling_frequency) none none,
    .mk none none none none ]

/-- Table `ch_read_adc_attr_map`. -/
def ch_read_adc_attr_map : List attrtibute_map :=
  [ .mk (some "voltage0") none
      (some cf_voltage_read_attrtibute_map) (some cf_voltage_read_attrtibute_map),
    .mk (some "voltage1") none
      (some cf_voltage_read_attrtibute_map) (some cf_voltage_read_attrtibute_map),
    .mk (some "voltage2") none
      (some cf_voltage_read_attrtibute_map) (some cf_voltage_read_attrtibute_map),
    .mk (some "voltage3") none
      (some cf_voltage_read_attrtibute_map) (some cf_voltage_read_attrtibute_map),
    .mk none none none none ]

/-- Function `get_ch_read_adc_attr_map`. -/
def get_ch_read_adc_attr_map : List attrtibute_map := ch_read_adc_attr_map

/-- Table `cf_voltage_write_attrtibute_map`. -/
def cf_voltage_write_attrtibute_map : List attrtibute_map :=
  [ .mk (some "calibphase") (some .set_cf_calibphase) none none,
    .mk (some "calibbias") (some .set_cf_calibbias) none none,
    .mk (some "calibscale") (some .set_cf_calibscale) none none,
    .mk (some "samples_pps") (some .set_cf_samples_pps) none none,
    .mk (some "sampling_frequency") (some .set_cf_sampling_frequency) none none,
    .mk none none none none ]

/-- Table `ch_write_adc_attr_map`. -/
def ch_write_adc_attr_map : List attrtibute_map :=
  [ .mk (some "voltage0") none
      (some cf_voltage_write_attrtibute_map) (some cf_voltage_write_attrtibute_map),
    .mk (some "voltage1") none
      (some cf_voltage_write_attrtibute_map) (some cf_voltage_write_attrtibute_map),
    .mk (some "voltage2") none
      (some cf_voltage_write_attrtibute_map) (some cf_voltage_write_attrtibute_map),
    .mk (some "voltage3") none
      (some cf_voltage_write_attrtibute_map) (some cf_voltage_write_attrtibute_map),
    .mk none none none none ]

/-- Function `get_ch_write_adc_attr_map`. -/
def get_ch_write_adc_attr_map : List attrtibute_map := ch_write_adc_attr_map

/-- The outcome of a scan: an entry, the sentinel, or the end of the initialiser reached
without a sentinel. -/
inductive Lookup (α : Type) where
  | found (a : α)
  | notFound
  | overrun
deriving DecidableEq, Repr

/-- Modelled from the spec: the linear scan of one table, which the repository keeps outside
`tinyiiod_adc.c`: entries are compared in order by exact, case-sensitive match of the name,
and the scan stops at the first entry with a null name. -/
def scan_map (name : String) : List attrtibute_map → Lookup attrtibute_map
  | [] => .overrun
  | e :: es =>
    match e.attr_name with
    | none => .notFound
    | some n => if n = name then .found e else scan_map name es

/-- Modelled from the spec: the second stage of the lookup, the scan of the attribute table
followed by the reading of the accessor of the entry found. -/
def leafAccessor (attr : String) (sub : List attrtibute_map) : Lookup Accessor :=
  match scan_map attr sub with
  | .found a =>
    match a.exec with
    | some f => .found f
    | none => .notFound
  | .notFound => .notFound
  | .overrun => .overrun

/-- Modelled from the spec: the two-stage lookup, first the channel name in the channel
table, then the attribute name in the table of that channel (`map_out` for an output
channel, `map_in` otherwise). -/
def find_accessor (map : List attrtibute_map) (ch_out : Bool) (channel attr : String) :
    Lookup Accessor :=
  match scan_map channel map with
  | .found e =>
    match (if ch_out then e.map_out else e.map_in) with
    | none => .notFound
    | some sub => leafAccessor attr sub
  | .notFound => .notFound
  | .overrun => .overrun

/-- The channel names of the registry. -/
def voltageNames : List String := ["voltage0", "voltage1", "voltage2", "voltage3"]

/-- The attribute names of the registry with the read accessor of that name. -/
def readAccessors : List (String × Accessor) :=
  [("calibphase", .get_cf_calibphase), ("calibbias", .get_cf_calibbias),
   ("calibscale", .get_cf_calibscale), ("samples_pps", .get_cf_samples_pps),
   ("sampling_frequency", .get_cf_sampling_frequency)]

/-- The attribute names of the registry with the write accessor of that name. -/
def writeAccessors : List (String × Accessor) :=
  [("calibphase", .set_cf_calibphase), ("calibbias", .set_cf_calibbias),
   ("calibscale", .set_cf_calibscale), ("samples_pps", .set_cf_samples_pps),
   ("sampling_frequency", .set_cf_sampling_frequency)]

/-! ## The UART driver: data model -/

/-- Modelled from the spec: the status codes of `error.h`, which is not among the sources:
success is zero. -/
def SUCCESS : Int := 0

/-- Modelled from the spec: the status codes of `error.h`, which is not among the sources:
a failure is a negative code. -/
def FAILURE : Int := -1

/-- Status `XST_SUCCESS` of the Xilinx `xstatus.h`. -/
def XST_SUCCESS : Int := 0

/-- Event `XUARTPS_EVENT_RECV_DATA` of the Xilinx `xuartps.h`. -/
def XUARTPS_EVENT_RECV_DATA : Nat := 1

/-- Event `XUARTPS_EVENT_RECV_TOUT`. -/
def XUARTPS_EVENT_RECV_TOUT : Nat := 2

/-- Event `XUARTPS_EVENT_SENT_DATA`. -/
def XUARTPS_EVENT_SENT_DATA : Nat := 3

/-- Event `XUARTPS_EVENT_RECV_ERROR`. -/
def XUARTPS_EVENT_RECV_ERROR : Nat := 4

/-- Event `XUARTPS_EVENT_MODEM`. -/
def XUARTPS_EVENT_MODEM : Nat := 5

/-- Event `XUARTPS_EVENT_PARE_FRAME_BRKE`. -/
def XUARTPS_EVENT_PARE_FRAME_BRKE : Nat := 6

/-- Event `XUARTPS_EVENT_RECV_ORERR`. -/
def XUARTPS_EVENT_RECV_ORERR : Nat := 7

/-- Modelled from the spec: a node of the byte queue (`struct fifo_element` of `fifo.h`,
which is not among the sources): a byte buffer and the count of valid bytes; the `next`
link is the tail of the list the node heads, and the null queue is the empty list. -/
structure fifo_element where
  data : List Nat
  len : Nat
deriving DecidableEq, Repr

/-- Modelled from the spec: `fifo_remove` frees the head node and returns the next one. -/
def fifo_remove : List fifo_element → List fifo_element
  | [] => []
  | _ :: next => next

/-- Modelled from the spec: `fifo_insert` when memory is obtained: the first `len` bytes of
the buffer become a new node at the tail, and the status is `SUCCESS`. -/
def fifo_insert_ok (fifo : List fifo_element) (buff : List Nat) (len : Nat) :
    Int × List fifo_element :=
  (SUCCESS, fifo ++ [{ data := buff.take len, len := len }])

/-- Modelled from the spec: `fifo_insert` when memory cannot be obtained: the queue is left
in its prior state and the negative code `e` is the status. -/
def fifo_insert_fail (e : Int) (fifo : List fifo_element) (_buff : List Nat) (_len : Nat) :
    Int × List fifo_element :=
  (e, fifo)

/-- Modelled from the spec: the driver part of the descriptor (`struct xil_uart_desc` of
`xilinx_platform_drivers.h`, which is not among the sources); the counters and the cursor
are `uint32_t`. -/
structure xil_uart_desc where
  irq_id : Nat
  buff : List Nat
  bytes_reveived : Nat
  fifo : List fifo_element
  fifo_read_offset : Nat
  total_error_count : Nat
deriving DecidableEq, Repr

/-- Modelled from the spec: the descriptor `struct uart_desc` of `uart.h`. -/
structure uart_desc where
  baud_rate : Nat
  device_id : Nat
  extra : xil_uart_desc
deriving DecidableEq, Repr

/-- What the driver leaves in the hardware instance and in the interrupt controller:
whether the interrupt source is enabled, how many receives `XUartPs_Recv` has armed,
whether the interrupt handler is registered, whether `uart_handler` is installed, the
interrupt mask, the operating mode and the receive timeout. -/
structure Hw where
  irq_enabled : Bool
  recv_armed : Nat
  irq_registered : Bool
  handler_set : Bool
  irq_mask : Nat
  oper_mode : Nat
  recv_timeout : Nat
deriving DecidableEq, Repr

/-- Modelled from the spec: `irq_source_disable` disables the interrupt source at the
controller. -/
def irq_source_disable (hw : Hw) : Hw := { hw with irq_enabled := false }

/-- Modelled from the spec: a successful `irq_source_enable` enables the interrupt source
at the controller. -/
def irq_source_enable (hw : Hw) : Hw := { hw with irq_enabled := true }

/-- Effect of `XUartPs_Recv(instance, buff, BUFF_LENGTH)`: a receive is armed. -/
def XUartPs_Recv (hw : Hw) : Hw := { hw with recv_armed := hw.recv_armed + 1 }

/-- The capability `fifo_insert`: status and queue after the call. -/
abbrev FifoInsert := List fifo_element → List Nat → Nat → Int × List fifo_element

/-! ## The UART driver: operations -/

/-- Function `uart_receive`: status, descriptor and hardware after the call. -/
def uart_receive (fifo_insert : FifoInsert) (desc : uart_desc) (hw : Hw) :
    Int × uart_desc × Hw :=
  let x := desc.extra
  if x.bytes_reveived > 0 then
    let hw1 := irq_source_disable hw
    let r := fifo_insert x.fifo x.buff x.bytes_reveived
    let ret := r.1
    let x1 := { x with fifo := r.2 }
    if ret < 0 then (ret, { desc with extra := x1 }, hw1)
    else
      let x2 := { x1 with bytes_reveived := 0 }
      let hw2 := XUartPs_Recv hw1
      let hw3 := irq_source_enable hw2
      (SUCCESS, { desc with extra := x2 }, hw3)
  else (SUCCESS, desc, hw)

/-- The `while (fifo == NULL)` loop of `uart_read_byte`, run for at most `fuel` rounds:
`none` when the queue is still empty after them, otherwise the status (negative when
`uart_receive` failed, `SUCCESS` when the queue has a node) and the state. No interrupt is
delivered between two rounds. -/
def uart_read_byte_wait (fifo_insert : FifoInsert) :
    Nat → uart_desc → Hw → Option (Int × uart_desc × Hw)
  | 0, desc, hw => if desc.extra.fifo.isEmpty then none else some (SUCCESS, desc, hw)
  | fuel + 1, desc, hw =>
    if desc.extra.fifo.isEmpty then
      let r := uart_receive fifo_insert desc hw
      if r.1 < 0 then some r else uart_read_byte_wait fifo_insert fuel r.2.1 r.2.2
    else some (SUCCESS, desc, hw)

/-- Function `uart_read_byte`: status, the byte stored through `data` if any, and the state
after the call; `none` when the wait does not end within `fuel` rounds. The subtraction
`len - fifo_read_offset` is on `uint32_t`. The wait ends with `SUCCESS` only on a queue
that has a head node. -/
def uart_read_byte (fifo_insert : FifoInsert) (fuel : Nat) (desc : uart_desc) (hw : Hw) :
    Option (Int × Option Nat × uart_desc × Hw) :=
  match uart_read_byte_wait fifo_insert fuel desc hw with
  | none => none
  | some (ret, desc1, hw1) =>
    if ret < 0 then some (ret, none, desc1, hw1)
    else
      match desc1.extra.fifo with
      | [] => some (ret, none, desc1, hw1)
      | head :: next =>
        let x := desc1.extra
        let byte := head.data.getD x.fifo_read_offset 0
        let off := (x.fifo_read_offset + 1) % 2 ^ 32
        let x1 :=
          if (head.len + 2 ^ 32 - off) % 2 ^ 32 ≤ 0 then
            { x with fifo_read_offset := 0, fifo := fifo_remove (head :: next) }
          else { x with fifo_read_offset := off }
        some (SUCCESS, some byte, { desc1 with extra := x1 }, hw1)

/-- The `for` loop of `uart_read` from index `i` with `k` rounds left: the status when a
round failed (`none` when all rounds passed), and the state and the caller's array after
the loop. -/
def uart_read_loop (fifo_insert : FifoInsert) (fuel : Nat) :
    Nat → Nat → uart_desc → Hw → List Nat → Option (Option Int × uart_desc × Hw × List Nat)
  | 0, _, desc, hw, data => some (none, desc, hw, data)
  | k + 1, i, desc, hw, data =>
    match uart_read_byte fifo_insert fuel desc hw with
    | none => none
    | some (ret, byte, desc1, hw1) =>
      let data1 := match byte with
        | some b => data.set i b
        | none => data
      if ret < 0 then some (some ret, desc1, hw1, data1)
      else uart_read_loop fifo_insert fuel k (i + 1) desc1 hw1 data1

/-- Function `uart_read`: the `uint32_t` count is returned through an `int32_t`. -/
def uart_read (fifo_insert : FifoInsert) (fuel : Nat) (desc : uart_desc) (hw : Hw)
    (data : List Nat) (bytes_number : Nat) : Option (Int × uart_desc × Hw × List Nat) :=
  match uart_read_loop fifo_insert fuel bytes_number 0 desc hw data with
  | none => none
  | some (some ret, desc1, hw1, data1) => some (ret, desc1, hw1, data1)
  | some (none, desc1, hw1, data1) => some (wrapSigned 32 bytes_number, desc1, hw1, data1)

/-- Function `uart_handler`, on the descriptor passed as `call_back_ref`. -/
def uart_handler (x : xil_uart_desc) (event data_len : Nat) : xil_uart_desc :=
  let x1 := if event = XUARTPS_EVENT_RECV_DATA then { x with bytes_reveived := data_len } else x
  let x2 := if event = XUARTPS_EVENT_RECV_TOUT then { x1 with bytes_reveived := data_len } else x1
  let x3 := if event = XUARTPS_EVENT_RECV_ERROR then
      { x2 with total_error_count := (x2.total_error_count + 1) % 2 ^ 32 } else x2
  let x4 := if event = XUARTPS_EVENT_PARE_FRAME_BRKE then
      { x3 with total_error_count := (x3.total_error_count + 1) % 2 ^ 32 } else x3
  let x5 := if event = XUARTPS_EVENT_RECV_ORERR then
      { x4 with total_error_count := (x4.total_error_count + 1) % 2 ^ 32 } else x4
  x5

/-- Function `uart_get_errors`: the count and the descriptor after the call. -/
def uart_get_errors (desc : uart_desc) : Nat × uart_desc :=
  let total_error_count := desc.extra.total_error_count
  (total_error_count, { desc with extra := { desc.extra with total_error_count := 0 } })

/-- The handler events delivered one after the other to a descriptor. -/
def deliver (desc : uart_desc) (events : List (Nat × Nat)) : uart_desc :=
  events.foldl (fun d ev => { d with extra := uart_handler d.extra ev.1 ev.2 }) desc

/-- An error event: receive error, parity/frame/break error or overrun. -/
def isErrorEvent (event : Nat) : Bool :=
  event = XUARTPS_EVENT_RECV_ERROR || event = XUARTPS_EVENT_PARE_FRAME_BRKE ||
    event = XUARTPS_EVENT_RECV_ORERR

/-- The unread bytes of the queue in node order, from the read cursor on. -/
def unread (x : xil_uart_desc) : List Nat :=
  match x.fifo with
  | [] => []
  | head :: next =>
    (head.data.take head.len).drop x.fifo_read_offset
      ++ (next.map (fun e => e.data.take e.len)).flatten

/-- A queue made of nodes that each hold at least one byte, within their buffer, with the
read cursor inside the head node. -/
def QueueOk (x : xil_uart_desc) : Prop :=
  (∀ e ∈ x.fifo, 1 ≤ e.len ∧ e.len ≤ e.data.length ∧ e.len < 2 ^ 32) ∧
  (∀ head next, x.fifo = head :: next → x.fifo_read_offset < head.len)

/-- The sum of the lengths of the nodes of a queue. -/
def lenSum (q : List fifo_element) : Nat := (q.map (fun e => e.len)).sum

/-- The queue state `x1` is `x` after `k` bytes were consumed: some leading nodes are gone,
the cursor counts the bytes consumed from the present head, and nothing else changed. -/
def Advanced (x x1 : xil_uart_desc) (k : Nat) : Prop :=
  ∃ j, x1 = { x with fifo := x.fifo.drop j, fifo_read_offset := x1.fifo_read_offset } ∧
    x1.fifo_read_offset + lenSum (x.fifo.take j) = x.fifo_read_offset + k

/-- A hardware state after initialisation: interrupt enabled, one receive armed. -/
def demoHw : Hw :=
  { irq_enabled := true, recv_armed := 1, irq_registered := true, handler_set := true,
    irq_mask := 0, oper_mode := 0, recv_timeout := 8 }

/-- A descriptor whose queue was built from `[A, B, C]` then `[D, E]`, nothing read yet,
with `pending` bytes recorded by the handler. -/
def demoDesc (pending : Nat) : uart_desc :=
  { baud_rate := 115200, device_id := 0,
    extra := { irq_id := 0, buff := [70, 71], bytes_reveived := pending,
               fifo := [⟨[65, 66, 67], 3⟩, ⟨[68, 69], 2⟩],
               fifo_read_offset := 0, total_error_count := 0 } }

/-- A descriptor whose queue is one node of `2^31` bytes. -/
def bigDesc : uart_desc :=
  { baud_rate := 115200, device_id := 0,
    extra := { irq_id := 0, buff := [], bytes_reveived := 0,
               fifo := [⟨List.replicate 2147483648 65, 2147483648⟩],
               fifo_read_offset := 0, total_error_count := 0 } }

/-! ## The UART driver: initialisation -/

/-- Interrupt bits `XUARTPS_IXR_*` and the constants `XPLAT_ZYNQ_ULTRA_MP` and
`XUARTPS_OPER_MODE_NORMAL` of the Xilinx headers. -/
def XUARTPS_IXR_TOUT : Nat := 0x100

/-- Bit `XUARTPS_IXR_PARITY`. -/
def XUARTPS_IXR_PARITY : Nat := 0x80

/-- Bit `XUARTPS_IXR_FRAMING`. -/
def XUARTPS_IXR_FRAMING : Nat := 0x40

/-- Bit `XUARTPS_IXR_OVER`. -/
def XUARTPS_IXR_OVER : Nat := 0x20

/-- Bit `XUARTPS_IXR_RXFULL`. -/
def XUARTPS_IXR_RXFULL : Nat := 0x04

/-- Bit `XUARTPS_IXR_RXOVR`. -/
def XUARTPS_IXR_RXOVR : Nat := 0x01

/-- Bit `XUARTPS_IXR_RBRK`. -/
def XUARTPS_IXR_RBRK : Nat := 0x2000

/-- Platform `XPLAT_ZYNQ_ULTRA_MP`. -/
def XPLAT_ZYNQ_ULTRA_MP : Nat := 0x1

/-- Mode `XUARTPS_OPER_MODE_NORMAL`. -/
def XUARTPS_OPER_MODE_NORMAL : Nat := 0

/-- The outcomes of the configuration steps of `uart_init`: the configuration found by
`XUartPs_LookupConfig` (its base address, or null), the statuses of `XUartPs_CfgInitialize`,
`XUartPs_SetBaudRate`, `irq_register` and `irq_source_enable`, and the platform the
instance reports. -/
structure InitSteps where
  config : Option Nat
  cfg_status : Int
  baud_status : Int
  irq_register_status : Int
  irq_enable_status : Int
  platform : Nat
deriving DecidableEq, Repr

/-- Modelled from the spec: the initialisation parameters (`struct uart_init_par` of
`uart.h`): `baud_rate`, `device_id` and, from `extra`, `irq_id`. -/
structure uart_init_par where
  baud_rate : Nat
  device_id : Nat
  irq_id : Nat
deriving DecidableEq, Repr

/-- Function `uart_irq_init`: status and hardware after the call. -/
def uart_irq_init (steps : InitSteps) (_descriptor : uart_desc) (hw : Hw) : Int × Hw :=
  let status := steps.irq_register_status
  if status < 0 then (status, hw)
  else
    let hw1 := { hw with irq_registered := true }
    let hw2 := { hw1 with handler_set := true }
    let uart_irq_mask :=
      XUARTPS_IXR_TOUT ||| XUARTPS_IXR_PARITY ||| XUARTPS_IXR_FRAMING |||
      XUARTPS_IXR_OVER ||| XUARTPS_IXR_RXFULL ||| XUARTPS_IXR_RXOVR
    let uart_irq_mask :=
      if steps.platform = XPLAT_ZYNQ_ULTRA_MP then uart_irq_mask ||| XUARTPS_IXR_RBRK
      else uart_irq_mask
    let hw3 := { hw2 with irq_mask := uart_irq_mask }
    let status := steps.irq_enable_status
    if status < 0 then (status, hw3)
    else (SUCCESS, irq_source_enable hw3)

/-- The descriptor `uart_init` builds in zeroed memory; `BUFF_LENGTH` is the size of the
receive buffer. -/
def newDescriptor (BUFF_LENGTH : Nat) (par : uart_init_par) : uart_desc :=
  { baud_rate := par.baud_rate, device_id := par.device_id,
    extra := { irq_id := par.irq_id, buff := List.replicate BUFF_LENGTH 0,
               bytes_reveived := 0, fifo := [], fifo_read_offset := 0,
               total_error_count := 0 } }

/-- Function `uart_init`: status, the caller's `*desc` slot and the hardware after the
call. The allocations are taken to succeed; `XUartPs_ResetHw` leaves nothing in `Hw`. -/
def uart_init (BUFF_LENGTH : Nat) (steps : InitSteps) (desc : Option uart_desc)
    (par : uart_init_par) (hw : Hw) : Int × Option uart_desc × Hw :=
  let descriptor := newDescriptor BUFF_LENGTH par
  match steps.config with
  | none => (FAILURE, desc, hw)
  | some _ =>
    let status := steps.cfg_status
    if status ≠ XST_SUCCESS then (FAILURE, desc, hw)
    else
      let hw1 := { hw with oper_mode := XUARTPS_OPER_MODE_NORMAL }
      let status := steps.baud_status
      if status ≠ XST_SUCCESS then (FAILURE, desc, hw1)
      else
        let hw2 := { hw1 with recv_timeout := 8 }
        let r := uart_irq_init steps descriptor hw2
        let status := r.1
        if status ≠ XST_SUCCESS then (FAILURE, desc, r.2)
        else (SUCCESS, some descriptor, XUartPs_Recv r.2)

/-- Every configuration step succeeded: a configuration was found, the two Xilinx calls
returned `XST_SUCCESS`, and the two interrupt calls returned no negative status. -/
def StepsOk (steps : InitSteps) : Prop :=
  steps.config.isSome = true ∧ steps.cfg_status = XST_SUCCESS ∧
  steps.baud_status = XST_SUCCESS ∧ 0 ≤ steps.irq_register_status ∧ 0 ≤ steps.irq_enable_status

instance (steps : InitSteps) : Decidable (StepsOk steps) := by
  unfold StepsOk; infer_instance

/-- A hardware before initialisation. -/
def coldHw : Hw :=
  { irq_enabled := false, recv_armed := 0, irq_registered := false, handler_set := false,
    irq_mask := 0, oper_mode := 0, recv_timeout := 0 }

end NoOS

namespace NoOS

/-! ## Buffer and integer lemmas -/

theorem storeAt_length (bs : List Char) : ∀ (buf : List Char) (off : Nat),
    (storeAt buf off bs).length = buf.length := by
  induction bs with
  | nil => intro buf off; rfl
  | cons b bs ih => intro buf off; simp [storeAt, ih]

theorem storeAt_eq (bs : List Char) : ∀ (buf : List Char) (off : Nat),
    off + bs.length ≤ buf.length →
    storeAt buf off bs = buf.take off ++ bs ++ buf.drop (off + bs.length) := by
  induction bs with
  | nil => intro buf off _; simp [storeAt]
  | cons b bs ih =>
    intro buf off h
    simp only [List.length_cons] at h
    have hlt : off < buf.length := by omega
    have hset : buf.set off b = buf.take off ++ b :: buf.drop (off + 1) := by
      rw [List.set_eq_take_append_cons_drop, if_pos hlt]
    have hl : (buf.take off).length = off := by simp; omega
    rw [storeAt, ih (buf.set off b) (off + 1) (by simp; omega), hset]
    have e1 : List.take (off + 1) (List.take off buf ++ b :: List.drop (off + 1) buf)
        = List.take off buf ++ [b] := by
      rw [List.take_append_eq_append_take, hl]
      simp [List.take_take]
    have e2 : List.drop (off + 1 + bs.length) (List.take off buf ++ b :: List.drop (off + 1) buf)
        = List.drop (off + (bs.length + 1)) buf := by
      rw [List.drop_append_eq_append_drop, hl]
      have : off + 1 + bs.length - off = bs.length + 1 := by omega
      rw [this, List.drop_succ_cons, List.drop_drop]
      have h0 : List.drop (off + 1 + bs.length) (List.take off buf) = [] := by
        apply List.drop_eq_nil_of_le; simp; omega
      rw [h0]
      simp [show off + 1 + bs.length = off + (bs.length + 1) by omega]
    rw [e1, e2]
    simp

theorem wrapSigned_of_isInt32 {x : Int} (h : isInt32 x) : wrapSigned 32 x = x := by
  unfold isInt32 at h
  unfold wrapSigned
  norm_num at h ⊢
  split_ifs with h1 <;> omega

theorem snprintf_fits (buf : List Char) (off n : Nat) (s : List Char)
    (hn : s.length + 1 ≤ n) (hb : off + s.length + 1 ≤ buf.length) :
    snprintf buf off n s
      = ((s.length : Int), buf.take off ++ s ++ NUL :: buf.drop (off + s.length + 1)) := by
  have h0 : n ≠ 0 := by omega
  have ht : s.take (n - 1) = s := List.take_of_length_le (by omega)
  rw [snprintf, if_neg h0, ht, storeAt_eq _ _ _ (by simp; omega)]
  simp [Nat.add_assoc]

theorem truncToInt_natCast_div (a d : Nat) : truncToInt ((a : ℚ) / (d : ℚ)) = ((a / d : Nat) : Int) := by
  have h0 : (0 : ℚ) ≤ (a : ℚ) / (d : ℚ) := by positivity
  have := Rat.floor_natCast_div_natCast a d
  unfold truncToInt
  rw [if_pos h0]
  exact this

theorem truncToInt_natCast (a : Nat) : truncToInt (a : ℚ) = (a : Int) := by
  have := truncToInt_natCast_div a 1
  simpa using this

/-- A family of texts in the domain of the round trip: a fractional part that is a
multiple of 1/64 (of 0.015625), the whole below `2^24` millionths. -/
theorem isBinary32_of_sixtyfourths (ip j : Nat)
    (hM : ip * 10 ^ 6 + 15625 * j < 2 ^ 24) :
    IsBinary32 ((ip : ℚ) + ((15625 * j : Nat) : ℚ) / (10 : ℚ) ^ 6) ∧
    IsBinary32 ((ip * 10 ^ 6 + 15625 * j : Nat) : ℚ) := by
  constructor
  · refine ⟨((64 * ip + j : Nat) : Int), -6, ?_, by decide, by decide, ?_⟩
    · rw [Int.natAbs_ofNat]; norm_num at hM ⊢; omega
    · rw [zpow_neg]
      push_cast
      norm_num
      ring
  · refine ⟨((ip * 10 ^ 6 + 15625 * j : Nat) : Int), 0, ?_, by decide, by decide, ?_⟩
    · rw [Int.natAbs_ofNat]; exact hM
    · simp

/-- C1. At the pair `(val, val2) = (5, INT32_MIN)` the text of `get_cf_calibphase` and of
`get_cf_calibscale` is `-5.-2147483648`, on a 32-bit and on a 64-bit `long` alike, where
the sign policy asks for `-5.2147483648`: the magnitude of `INT32_MIN` does not survive
`labs` and the 32-bit conversion. -/
theorem get_cf_calib_int32_min :
    get_cf_calibphase 32 (constAdc 0 5 (-2147483648) 0) () (List.replicate 16 'x') 16 ⟨0⟩
      = (14, "-5.-2147483648".toList ++ [NUL, 'x']) ∧
    get_cf_calibphase 64 (constAdc 0 5 (-2147483648) 0) () (List.replicate 16 'x') 16 ⟨0⟩
      = (14, "-5.-2147483648".toList ++ [NUL, 'x']) ∧
    get_cf_calibscale 32 (constAdc 0 5 (-2147483648) 0) () (List.replicate 16 'x') 16 ⟨0⟩
      = (14, "-5.-2147483648".toList ++ [NUL, 'x']) ∧
    get_cf_calibscale 64 (constAdc 0 5 (-2147483648) 0) () (List.replicate 16 'x') 16 ⟨0⟩
      = (14, "-5.-2147483648".toList ++ [NUL, 'x']) ∧
    calibText 5 (-2147483648) = "-5.2147483648".toList := by
  decide

/-- The example of the sign policy: the pair `(5, -250000)` is printed as `-5.250000`. -/
theorem get_cf_calibphase_example :
    get_cf_calibphase 32 (constAdc 0 5 (-250000) 0) () (List.replicate 12 'x') 12 ⟨0⟩
      = (9, "-5.250000".toList ++ [NUL, 'x', 'x']) ∧
    get_cf_calibscale 32 (constAdc 0 5 (-250000) 0) () (List.replicate 12 'x') 12 ⟨0⟩
      = (9, "-5.250000".toList ++ [NUL, 'x', 'x']) := by
  decide

theorem leafAccessor_read (attr : String) :
    (∀ f, leafAccessor attr cf_voltage_read_attrtibute_map = .found f
        ↔ (attr, f) ∈ readAccessors) ∧
    leafAccessor attr cf_voltage_read_attrtibute_map ≠ .overrun := by
  refine ⟨fun f => ?_, ?_⟩ <;>
  simp only [leafAccessor, cf_voltage_read_attrtibute_map, scan_map,
    attrtibute_map.attr_name, readAccessors] <;>
  split_ifs <;> simp_all [attrtibute_map.exec, eq_comm]

theorem leafAccessor_write (attr : String) :
    (∀ f, leafAccessor attr cf_voltage_write_attrtibute_map = .found f
        ↔ (attr, f) ∈ writeAccessors) ∧
    leafAccessor attr cf_voltage_write_attrtibute_map ≠ .overrun := by
  refine ⟨fun f => ?_, ?_⟩ <;>
  simp only [leafAccessor, cf_voltage_write_attrtibute_map, scan_map,
    attrtibute_map.attr_name, writeAccessors] <;>
  split_ifs <;> simp_all [attrtibute_map.exec, eq_comm]

theorem scan_channels (channel : String) (sub : List attrtibute_map) :
    scan_map channel
      [ .mk (some "voltage0") none (some sub) (some sub),
        .mk (some "voltage1") none (some sub) (some sub),
        .mk (some "voltage2") none (some sub) (some sub),
        .mk (some "voltage3") none (some sub) (some sub),
        .mk none none none none ]
      = if channel ∈ voltageNames then
          .found (.mk (some channel) none (some sub) (some sub))
        else .notFound := by
  simp only [scan_map, attrtibute_map.attr_name, voltageNames, List.mem_cons,
    List.mem_singleton, List.not_mem_nil, or_false]
  by_cases h0 : "voltage0" = channel
  · subst h0; simp
  · by_cases h1 : "voltage1" = channel
    · subst h1; simp
    · by_cases h2 : "voltage2" = channel
      · subst h2; simp
      · by_cases h3 : "voltage3" = channel
        · subst h3; simp
        · simp [h0, h1, h2, h3, Ne.symm h0, Ne.symm h1, Ne.symm h2, Ne.symm h3]

theorem find_accessor_read (ch_out : Bool) (channel attr : String) :
    find_accessor get_ch_read_adc_attr_map ch_out channel attr
      = if channel ∈ voltageNames then leafAccessor attr cf_voltage_read_attrtibute_map
        else .notFound := by
  rw [find_accessor, get_ch_read_adc_attr_map, ch_read_adc_attr_map, scan_channels]
  by_cases h : channel ∈ voltageNames
  · rw [if_pos h, if_pos h]
    cases ch_out <;> simp [attrtibute_map.map_in, attrtibute_map.map_out]
  · rw [if_neg h, if_neg h]

theorem find_accessor_write (ch_out : Bool) (channel attr : String) :
    find_accessor get_ch_write_adc_attr_map ch_out channel attr
      = if channel ∈ voltageNames then leafAccessor attr cf_voltage_write_attrtibute_map
        else .notFound := by
  rw [find_accessor, get_ch_write_adc_attr_map, ch_write_adc_attr_map, scan_channels]
  by_cases h : channel ∈ voltageNames
  · rw [if_pos h, if_pos h]
    cases ch_out <;> simp [attrtibute_map.map_in, attrtibute_map.map_out]
  · rw [if_neg h, if_neg h]

/-- C3. For every pair of strings, the two-stage scan of the table of
`get_ch_read_adc_attr_map` (resp. `get_ch_write_adc_attr_map`) finds an accessor exactly
when the channel is one of `voltage0` .. `voltage3` and the attribute one of the five
names, and it is then the `get_cf_` (resp. `set_cf_`) function of that name; every other
pair is reported not found; no scan runs past its table, thanks to the sentinels. -/
theorem find_accessor_spec (ch_out : Bool) (channel attr : String) :
    (∀ f, find_accessor get_ch_read_adc_attr_map ch_out channel attr = .found f
        ↔ channel ∈ voltageNames ∧ (attr, f) ∈ readAccessors) ∧
    (¬ (channel ∈ voltageNames ∧ attr ∈ readAccessors.map Prod.fst) →
      find_accessor get_ch_read_adc_attr_map ch_out channel attr = .notFound) ∧
    find_accessor get_ch_read_adc_attr_map ch_out channel attr ≠ .overrun ∧
    (∀ f, find_accessor get_ch_write_adc_attr_map ch_out channel attr = .found f
        ↔ channel ∈ voltageNames ∧ (attr, f) ∈ writeAccessors) ∧
    (¬ (channel ∈ voltageNames ∧ attr ∈ writeAccessors.map Prod.fst) →
      find_accessor get_ch_write_adc_attr_map ch_out channel attr = .notFound) ∧
    find_accessor get_ch_write_adc_attr_map ch_out channel attr ≠ .overrun := by
  have notFound_of : ∀ (r : Lookup Accessor) (l : List (String × Accessor)),
      (∀ f, r = .found f ↔ (attr, f) ∈ l) → r ≠ .overrun →
      attr ∉ l.map Prod.fst → r = .notFound := by
    intro r l hf ho hn
    cases r with
    | found f => exact absurd (List.mem_map_of_mem Prod.fst ((hf f).mp rfl)) hn
    | notFound => rfl
    | overrun => exact absurd rfl ho
  obtain ⟨r1, r2⟩ := leafAccessor_read attr
  obtain ⟨w1, w2⟩ := leafAccessor_write attr
  rw [find_accessor_read, find_accessor_write]
  by_cases hc : channel ∈ voltageNames
  · simp only [if_pos hc, hc, true_and]
    exact ⟨r1, notFound_of _ _ r1 r2, r2, w1, notFound_of _ _ w1 w2, w2⟩
  · simp [if_neg hc, hc]

/-- Witness of C3: the lookup at four pairs: a registered read pair, a registered write pair, a pair
with an unknown channel and a pair whose attribute differs in case. -/
theorem find_accessor_spec_witness :
    find_accessor get_ch_read_adc_attr_map false "voltage2" "calibscale"
      = .found .get_cf_calibscale ∧
    find_accessor get_ch_write_adc_attr_map true "voltage0" "sampling_frequency"
      = .found .set_cf_sampling_frequency ∧
    find_accessor get_ch_read_adc_attr_map false "voltage4" "calibscale" = .notFound ∧
    find_accessor get_ch_write_adc_attr_map false "voltage1" "Calibscale" = .notFound :=
  ⟨((find_accessor_spec false "voltage2" "calibscale").1 _).mpr (by decide),
   ((find_accessor_spec true "voltage0" "sampling_frequency").2.2.2.1 _).mpr (by decide),
   (find_accessor_spec false "voltage4" "calibscale").2.1 (by decide),
   (find_accessor_spec false "voltage1" "Calibscale").2.2.2.2.1 (by decide)⟩

/-! ## Propagation of hardware failures -/

/-- The accessors that look at the status of the hardware call return it unchanged when it
is negative, and leave the buffer alone. -/
theorem checked_getters_propagate {σ : Type} (lw : Nat) (adc : AxiAdc σ) (rx_adc : σ)
    (buf : List Char) (len : Nat) (channel : channel_info) :
    ((adc.axi_adc_get_calib_phase rx_adc channel.ch_num).1 < 0 →
      get_cf_calibphase lw adc rx_adc buf len channel
        = ((adc.axi_adc_get_calib_phase rx_adc channel.ch_num).1, buf)) ∧
    ((adc.axi_adc_get_calib_scale rx_adc channel.ch_num).1 < 0 →
      get_cf_calibscale lw adc rx_adc buf len channel
        = ((adc.axi_adc_get_calib_scale rx_adc channel.ch_num).1, buf)) ∧
    ((adc.axi_adc_get_sampling_freq rx_adc channel.ch_num).1 < 0 →
      get_cf_sampling_frequency adc rx_adc buf len channel
        = ((adc.axi_adc_get_sampling_freq rx_adc channel.ch_num).1, buf)) := by
  refine ⟨fun h => ?_, fun h => ?_, fun h => ?_⟩
  · simp only [get_cf_calibphase, if_pos h]
  · simp only [get_cf_calibscale, if_pos h]
  · simp only [get_cf_sampling_frequency, if_pos h]

/-- Whatever the hardware answers, `get_cf_calibbias` and the three setters never return
a negative value. -/
theorem unchecked_accessors_nonneg {σ : Type} (adc : AxiAdc σ) (rx_adc : σ)
    (buf : List Char) (len : Nat) (channel : channel_info) :
    0 ≤ (get_cf_calibbias adc rx_adc buf len channel).1 ∧
    0 ≤ (set_cf_calibphase adc rx_adc buf len channel).1 ∧
    0 ≤ (set_cf_calibbias adc rx_adc buf len channel).1 ∧
    0 ≤ (set_cf_calibscale adc rx_adc buf len channel).1 := by
  simp [get_cf_calibbias, set_cf_calibphase, set_cf_calibbias, set_cf_calibscale, snprintf]

/-- C6. With a hardware whose every call fails with status `-5`, `get_cf_calibbias` answers
`1` and stores the text of whatever is in `val` (here `7`), and the three setters answer
`len` (here `8`); only `get_cf_calibphase`, `get_cf_calibscale` and
`get_cf_sampling_frequency` answer `-5` and store nothing. -/
theorem unchecked_accessors_drop_status :
    get_cf_calibbias (constAdc (-5) 7 0 0) () ['x', 'x', 'x', 'x'] 4 ⟨0⟩
      = (1, ['7', NUL, 'x', 'x']) ∧
    (set_cf_calibphase (constAdc (-5) 0 0 0) () "1.500000".toList 8 ⟨0⟩).1 = 8 ∧
    (set_cf_calibbias (constAdc (-5) 0 0 0) () "12".toList 8 ⟨0⟩).1 = 8 ∧
    (set_cf_calibscale (constAdc (-5) 0 0 0) () "1.500000".toList 8 ⟨0⟩).1 = 8 ∧
    get_cf_calibphase 32 (constAdc (-5) 7 0 0) () ['x', 'x', 'x', 'x'] 4 ⟨0⟩
      = (-5, ['x', 'x', 'x', 'x']) ∧
    get_cf_calibscale 32 (constAdc (-5) 7 0 0) () ['x', 'x', 'x', 'x'] 4 ⟨0⟩
      = (-5, ['x', 'x', 'x', 'x']) ∧
    get_cf_sampling_frequency (constAdc (-5) 7 0 0) () ['x', 'x', 'x', 'x'] 4 ⟨0⟩
      = (-5, ['x', 'x', 'x', 'x']) := by
  decide

/-! ## The sampling frequency -/

/-- Below `2^63` the text of `get_cf_sampling_frequency` is the unsigned decimal of the
value, and its length is returned. -/
theorem get_cf_sampling_frequency_text {σ : Type} (adc : AxiAdc σ) (rx_adc : σ)
    (buf : List Char) (len : Nat) (channel : channel_info) (ret : Int) (f : Nat)
    (hr : adc.axi_adc_get_sampling_freq rx_adc channel.ch_num = (ret, f))
    (hret : 0 ≤ ret) (hf : f < 2 ^ 63)
    (hlen : (decimal f).length + 1 ≤ len) (hbuf : len ≤ buf.length) :
    get_cf_sampling_frequency adc rx_adc buf len channel
      = (((decimal f).length : Int), decimal f ++ NUL :: buf.drop ((decimal f).length + 1)) := by
  have hw : wrapSigned 64 (f : Int) = (f : Int) := by
    unfold wrapSigned
    norm_num at hf ⊢
    split_ifs <;> omega
  have hfmt : fmt_PRIi64 (f : Int) = decimal f := by
    rw [fmt_PRIi64, hw, fmt_i, if_neg (by omega), Int.natAbs_ofNat]
  simp only [get_cf_sampling_frequency, hr, if_neg (not_lt.mpr hret), hfmt]
  rw [snprintf_fits buf 0 len _ hlen (by omega)]
  simp

/-- From `2^63` on the text of `get_cf_sampling_frequency` is a minus sign and the decimal
of `2^64 - f`. -/
theorem get_cf_sampling_frequency_signed {σ : Type} (adc : AxiAdc σ) (rx_adc : σ)
    (buf : List Char) (len : Nat) (channel : channel_info) (ret : Int) (f : Nat)
    (hr : adc.axi_adc_get_sampling_freq rx_adc channel.ch_num = (ret, f))
    (hret : 0 ≤ ret) (hf : 2 ^ 63 ≤ f) (hf2 : f < 2 ^ 64)
    (hlen : (decimal (2 ^ 64 - f)).length + 2 ≤ len) (hbuf : len ≤ buf.length) :
    get_cf_sampling_frequency adc rx_adc buf len channel
      = (((decimal (2 ^ 64 - f)).length : Int) + 1,
          '-' :: (decimal (2 ^ 64 - f) ++ NUL ::
            buf.drop ((decimal (2 ^ 64 - f)).length + 2))) := by
  have hw : wrapSigned 64 (f : Int) = (f : Int) - 2 ^ 64 := by
    unfold wrapSigned
    norm_num at hf hf2 ⊢
    split_ifs <;> omega
  have hneg : (f : Int) - 2 ^ 64 < 0 := by norm_num at hf2 ⊢; omega
  have habs : ((f : Int) - 2 ^ 64).natAbs = 2 ^ 64 - f := by
    norm_num at hf2 ⊢; omega
  have hfmt : fmt_PRIi64 (f : Int) = '-' :: decimal (2 ^ 64 - f) := by
    rw [fmt_PRIi64, hw, fmt_i, if_pos hneg, habs]
  simp only [get_cf_sampling_frequency, hr, if_neg (not_lt.mpr hret), hfmt]
  rw [snprintf_fits buf 0 len _ (by simp only [List.length_cons]; omega)
    (by simp only [List.length_cons]; omega)]
  simp only [List.length_cons, List.take_zero, List.nil_append, List.cons_append, Nat.zero_add,
    Nat.cast_add, Nat.cast_one, Nat.add_assoc]

/-- C7. At the sampling frequency `2^63` the text of `get_cf_sampling_frequency` is
`-9223372036854775808`, of length 20, where the unsigned decimal is `9223372036854775808`,
of length 19; at `2^64 - 1` the text is `-1`. -/
theorem get_cf_sampling_frequency_high_bit :
    get_cf_sampling_frequency (constAdc 0 0 0 (2 ^ 63)) () (List.replicate 22 'x') 22 ⟨0⟩
      = (20, "-9223372036854775808".toList ++ [NUL, 'x']) ∧
    decimal (2 ^ 63) = "9223372036854775808".toList ∧
    get_cf_sampling_frequency (constAdc 0 0 0 (2 ^ 64 - 1)) () (List.replicate 4 'x') 4 ⟨0⟩
      = (2, ['-', '1', NUL, 'x']) := by
  decide

/-! ## Buffer capacity -/

/-- Whatever the capacity `len`, a successful read accessor returns the length of the whole
formatted text (plus one for the leading minus sign). -/
theorem getters_return_full_length {σ : Type} (lw : Nat) (adc : AxiAdc σ) (rx_adc : σ)
    (buf : List Char) (len : Nat) (channel : channel_info) :
    (get_cf_calibbias adc rx_adc buf len channel).1
        = ((fmt_PRIi32 (adc.axi_adc_get_calib_bias rx_adc channel.ch_num).2).length : Int) ∧
    (0 ≤ (adc.axi_adc_get_sampling_freq rx_adc channel.ch_num).1 →
      (get_cf_sampling_frequency adc rx_adc buf len channel).1
        = ((fmt_PRIi64 ((adc.axi_adc_get_sampling_freq rx_adc channel.ch_num).2 : Int)).length
            : Int)) ∧
    (0 ≤ (adc.axi_adc_get_calib_phase rx_adc channel.ch_num).1 →
      (fmt_PRIi32 (adc.axi_adc_get_calib_phase rx_adc channel.ch_num).2.1 ++ '.' ::
          fmt_PRIi32_prec6 (labs lw (adc.axi_adc_get_calib_phase rx_adc channel.ch_num).2.2)).length
        ≤ (get_cf_calibphase lw adc rx_adc buf len channel).1) := by
  refine ⟨rfl, fun h => ?_, fun h => ?_⟩
  · simp only [get_cf_sampling_frequency, if_neg (not_lt.mpr h), snprintf]
  · simp only [get_cf_calibphase, if_neg (not_lt.mpr h), snprintf]
    split_ifs <;> simp

/-- C8. Two calls on a buffer shorter than the text. `get_cf_calibbias` with `val = 12345`
and `len = 3` stores `12` and the terminator but answers `5`. `get_cf_calibphase` and
`get_cf_calibscale` with `(5, -250000)` and `len = 4`, on a memory of six characters,
answer `9` and store the terminator at index `4`, which is `buf[len]`. -/
theorem getters_exceed_len :
    get_cf_calibbias (constAdc 0 12345 0 0) () ['x', 'x', 'x'] 3 ⟨0⟩
      = (5, ['1', '2', NUL]) ∧
    get_cf_calibphase 32 (constAdc 0 5 (-250000) 0) () ['x', 'x', 'x', 'x', 'x', 'x'] 4 ⟨0⟩
      = (9, ['-', '5', '.', '2', NUL, 'x']) ∧
    get_cf_calibscale 32 (constAdc 0 5 (-250000) 0) () ['x', 'x', 'x', 'x', 'x', 'x'] 4 ⟨0⟩
      = (9, ['-', '5', '.', '2', NUL, 'x']) ∧
    get_cf_sampling_frequency (constAdc 0 0 0 48000000) () ['x', 'x', 'x'] 3 ⟨0⟩
      = (8, ['4', '8', NUL]) := by
  decide

/-! ## UART error counter -/

theorem uart_handler_count (x : xil_uart_desc) (event data_len : Nat) :
    (uart_handler x event data_len).total_error_count
      = if isErrorEvent event then (x.total_error_count + 1) % 2 ^ 32
        else x.total_error_count := by
  simp only [uart_handler, isErrorEvent, XUARTPS_EVENT_RECV_DATA, XUARTPS_EVENT_RECV_TOUT,
    XUARTPS_EVENT_RECV_ERROR, XUARTPS_EVENT_PARE_FRAME_BRKE, XUARTPS_EVENT_RECV_ORERR]
  by_cases h4 : event = 4
  · subst h4; simp
  · by_cases h6 : event = 6
    · subst h6; simp
    · by_cases h7 : event = 7
      · subst h7; simp
      · simp only [h4, h6, h7, if_false, decide_False, Bool.or_false, Bool.false_eq_true]
        split_ifs <;> rfl

theorem deliver_count (events : List (Nat × Nat)) : ∀ (desc : uart_desc),
    (deliver desc events).extra.total_error_count % 2 ^ 32
      = (desc.extra.total_error_count
          + (events.filter (fun ev => isErrorEvent ev.1)).length) % 2 ^ 32 := by
  induction events with
  | nil => intro desc; simp [deliver]
  | cons ev evs ih =>
    intro desc
    have h := ih { desc with extra := uart_handler desc.extra ev.1 ev.2 }
    simp only [deliver, List.foldl_cons] at h ⊢
    rw [h, uart_handler_count]
    by_cases he : isErrorEvent ev.1 = true
    · simp only [he, if_true, List.filter_cons_of_pos, List.length_cons]
      omega
    · simp only [he, if_false, Bool.false_eq_true]
      rw [List.filter_cons_of_neg (by simpa using he)]

theorem deliver_count_lt (events : List (Nat × Nat)) : ∀ (desc : uart_desc),
    desc.extra.total_error_count < 2 ^ 32 →
    (deliver desc events).extra.total_error_count < 2 ^ 32 := by
  induction events with
  | nil => intro desc h; simpa [deliver] using h
  | cons ev evs ih =>
    intro desc h
    have h2 : (uart_handler desc.extra ev.1 ev.2).total_error_count < 2 ^ 32 := by
      rw [uart_handler_count]
      split_ifs
      · exact Nat.mod_lt _ (by norm_num)
      · exact h
    exact ih { desc with extra := uart_handler desc.extra ev.1 ev.2 } h2

/-- C5. After a call of `uart_get_errors`, and fewer than `2^32` handler events later, the
next `uart_get_errors` returns the number of error events among them (receive error,
parity/frame/break, overrun; data-ready, timeout and other events count for nothing) and
leaves the counter at zero, so that a second call at once returns 0. -/
theorem uart_get_errors_read_and_clear (desc : uart_desc) (events : List (Nat × Nat))
    (hlen : events.length < 2 ^ 32) :
    (uart_get_errors (deliver (uart_get_errors desc).2 events)).1
        = (events.filter (fun ev => isErrorEvent ev.1)).length ∧
    (uart_get_errors (deliver (uart_get_errors desc).2 events)).2.extra.total_error_count = 0 ∧
    (uart_get_errors (uart_get_errors (deliver (uart_get_errors desc).2 events)).2).1 = 0 := by
  have h0 : (uart_get_errors desc).2.extra.total_error_count = 0 := rfl
  have h1 := deliver_count events (uart_get_errors desc).2
  have h2 := deliver_count_lt events (uart_get_errors desc).2 (by rw [h0]; norm_num)
  have h3 : (events.filter (fun ev => isErrorEvent ev.1)).length ≤ events.length :=
    List.length_filter_le _ _
  rw [h0, Nat.zero_add, Nat.mod_eq_of_lt h2, Nat.mod_eq_of_lt (by omega)] at h1
  exact ⟨h1, rfl, rfl⟩

/-- Witness of C5: the read-and-clear counter on five events, three of them errors. -/
theorem uart_get_errors_read_and_clear_witness :
    (uart_get_errors (deliver (uart_get_errors
        ⟨115200, 0, ⟨0, [], 0, [], 0, 9⟩⟩).2 [(1, 8), (4, 0), (2, 3), (7, 0), (6, 0)])).1 = 3 ∧
    (uart_get_errors (uart_get_errors (deliver (uart_get_errors
        ⟨115200, 0, ⟨0, [], 0, [], 0, 9⟩⟩).2 [(1, 8), (4, 0), (2, 3), (7, 0), (6, 0)])).2).1
      = 0 :=
  ⟨(uart_get_errors_read_and_clear ⟨115200, 0, ⟨0, [], 0, [], 0, 9⟩⟩
      [(1, 8), (4, 0), (2, 3), (7, 0), (6, 0)] (by decide)).1,
   (uart_get_errors_read_and_clear ⟨115200, 0, ⟨0, [], 0, [], 0, 9⟩⟩
      [(1, 8), (4, 0), (2, 3), (7, 0), (6, 0)] (by decide)).2.2⟩

/-! ## UART read path -/

theorem unread_cursor_zero (x : xil_uart_desc) (h : x.fifo_read_offset = 0) :
    unread x = (x.fifo.map (fun e => e.data.take e.len)).flatten := by
  unfold unread
  cases hf : x.fifo with
  | nil => simp
  | cons head next => simp [h]

/-- One round of `uart_read_byte` on a queue with a head node: the byte under the cursor is
delivered, and the head is removed when it is used up. -/
theorem uart_read_byte_step (fi : FifoInsert) (fuel : Nat) (desc : uart_desc) (hw : Hw)
    (hq : QueueOk desc.extra) (head : fifo_element) (next : List fifo_element)
    (hf : desc.extra.fifo = head :: next) :
    ∃ (b : Nat) (x1 : xil_uart_desc),
      uart_read_byte fi fuel desc hw = some (SUCCESS, some b, { desc with extra := x1 }, hw) ∧
      unread desc.extra = b :: unread x1 ∧ QueueOk x1 ∧ Advanced desc.extra x1 1 := by
  obtain ⟨hnodes, hcur⟩ := hq
  have hoff := hcur head next hf
  obtain ⟨h1, h2, h3⟩ := hnodes head (by rw [hf]; exact List.mem_cons_self _ _)
  have hwait : uart_read_byte_wait fi fuel desc hw = some (SUCCESS, desc, hw) := by
    cases fuel <;> simp [uart_read_byte_wait, hf]
  have hmod : (desc.extra.fifo_read_offset + 1) % 2 ^ 32 = desc.extra.fifo_read_offset + 1 :=
    Nat.mod_eq_of_lt (by omega)
  have hlt : desc.extra.fifo_read_offset < head.data.length := by omega
  have hget : head.data.getD desc.extra.fifo_read_offset 0
      = head.data[desc.extra.fifo_read_offset] := by
    rw [List.getD_eq_getElem?_getD, List.getElem?_eq_getElem hlt]; rfl
  have hdrop : (head.data.take head.len).drop desc.extra.fifo_read_offset
      = head.data.getD desc.extra.fifo_read_offset 0
          :: (head.data.take head.len).drop (desc.extra.fifo_read_offset + 1) := by
    have hl : desc.extra.fifo_read_offset < (head.data.take head.len).length := by
      simp; omega
    rw [List.drop_eq_getElem_cons hl, hget]
    simp [List.getElem_take]
  by_cases hend : desc.extra.fifo_read_offset + 1 = head.len
  · have hcond : (head.len + 2 ^ 32 - (desc.extra.fifo_read_offset + 1)) % 2 ^ 32 ≤ 0 := by
      rw [← hend]; simp
    refine ⟨head.data.getD desc.extra.fifo_read_offset 0,
      { desc.extra with fifo_read_offset := 0, fifo := next }, ?_, ?_, ?_, ?_⟩
    · simp only [uart_read_byte, hwait, hf, hmod, if_pos hcond, fifo_remove, SUCCESS]
      simp
    · rw [unread_cursor_zero { desc.extra with fifo_read_offset := 0, fifo := next } rfl]
      simp only [unread, hf]
      rw [hdrop, hend]
      simp
    · refine ⟨fun e he => hnodes e (by rw [hf]; exact List.mem_cons_of_mem _ he), ?_⟩
      intro h2 n2 hn2
      have : h2 ∈ desc.extra.fifo := by
        rw [hf]; simp only at hn2; rw [hn2]; simp
      have := (hnodes h2 this).1
      simp only
      omega
    · refine ⟨1, ?_, ?_⟩
      · simp [hf]
      · simp [hf, lenSum]; omega
  · have hcond : ¬ (head.len + 2 ^ 32 - (desc.extra.fifo_read_offset + 1)) % 2 ^ 32 ≤ 0 := by
      have : (head.len + 2 ^ 32 - (desc.extra.fifo_read_offset + 1)) % 2 ^ 32
          = head.len - (desc.extra.fifo_read_offset + 1) := by
        rw [show head.len + 2 ^ 32 - (desc.extra.fifo_read_offset + 1)
          = (head.len - (desc.extra.fifo_read_offset + 1)) + 2 ^ 32 by omega,
          Nat.add_mod_right, Nat.mod_eq_of_lt (by omega)]
      omega
    refine ⟨head.data.getD desc.extra.fifo_read_offset 0,
      { desc.extra with fifo_read_offset := desc.extra.fifo_read_offset + 1 }, ?_, ?_, ?_, ?_⟩
    · simp only [uart_read_byte, hwait, hf, hmod, if_neg hcond, SUCCESS]
      simp
    · simp only [unread, hf]
      rw [hdrop]
      simp
    · refine ⟨hnodes, ?_⟩
      intro h2 n2 hn2
      simp only at hn2
      rw [hf] at hn2
      cases hn2
      simp only
      omega
    · refine ⟨0, ?_, ?_⟩
      · simp
      · simp [lenSum]

theorem Advanced.refl (x : xil_uart_desc) : Advanced x x 0 :=
  ⟨0, by simp, by simp [lenSum]⟩

theorem Advanced.trans {x x1 x2 : xil_uart_desc} {a b : Nat}
    (h1 : Advanced x x1 a) (h2 : Advanced x1 x2 b) : Advanced x x2 (a + b) := by
  obtain ⟨j1, e1, s1⟩ := h1
  obtain ⟨j2, e2, s2⟩ := h2
  have hfifo : x1.fifo = x.fifo.drop j1 := by rw [e1]
  refine ⟨j1 + j2, ?_, ?_⟩
  · rw [e2, e1]
    simp [List.drop_drop, Nat.add_comm]
  · have : lenSum (x.fifo.take (j1 + j2))
        = lenSum (x.fifo.take j1) + lenSum (x1.fifo.take j2) := by
      rw [hfifo, List.take_add]
      simp [lenSum]
    omega

/-- The first `k` rounds of the loop of `uart_read` on a queue that holds at least `k`
unread bytes: they pass, deliver the first `k` unread bytes into `data[i .. i+k)`, and leave
the hardware alone. -/
theorem uart_read_loop_first (fi : FifoInsert) (fuel : Nat) (hw : Hw) :
    ∀ (k i : Nat) (desc : uart_desc) (data : List Nat),
    QueueOk desc.extra → k ≤ (unread desc.extra).length → i + k ≤ data.length →
    ∃ x1 : xil_uart_desc,
      unread x1 = (unread desc.extra).drop k ∧ QueueOk x1 ∧ Advanced desc.extra x1 k ∧
      ∀ m, uart_read_loop fi fuel (k + m) i desc hw data
        = uart_read_loop fi fuel m (i + k) { desc with extra := x1 } hw
            (data.take i ++ (unread desc.extra).take k ++ data.drop (i + k)) := by
  intro k
  induction k with
  | zero =>
    intro i desc data hq _ _
    exact ⟨desc.extra, by simp, hq, Advanced.refl _, by intro m; simp⟩
  | succ k ih =>
    intro i desc data hq hk hd
    cases hf : desc.extra.fifo with
    | nil => simp [unread, hf] at hk
    | cons head next =>
      obtain ⟨b, x1, hb, hu, hq1, ha1⟩ := uart_read_byte_step fi fuel desc hw hq head next hf
      have hk1 : k ≤ (unread x1).length := by
        rw [hu] at hk; simp at hk; omega
      have hlen : (data.set i b).length = data.length := by simp
      obtain ⟨x2, hu2, hq2, ha2, hloop⟩ :=
        ih (i + 1) { desc with extra := x1 } (data.set i b) hq1 hk1 (by rw [hlen]; omega)
      refine ⟨x2, ?_, hq2, ?_, ?_⟩
      · rw [hu2, hu]; rfl
      · have := Advanced.trans ha1 ha2
        rwa [Nat.add_comm] at this
      · intro m
        have hstep : uart_read_loop fi fuel (k + 1 + m) i desc hw data
            = uart_read_loop fi fuel (k + m) (i + 1) { desc with extra := x1 } hw
                (data.set i b) := by
          rw [show k + 1 + m = (k + m) + 1 by omega, uart_read_loop, hb]
          simp [SUCCESS]
        rw [hstep, hloop m, hu]
        have hset : data.set i b = data.take i ++ b :: data.drop (i + 1) := by
          rw [List.set_eq_take_append_cons_drop, if_pos (by omega)]
        have hti : (data.take i).length = i := by simp; omega
        have e1 : List.take (i + 1) (data.set i b) = data.take i ++ [b] := by
          rw [hset, List.take_append_eq_append_take, hti]
          simp [List.take_take]
        have e2 : List.drop (i + 1 + k) (data.set i b) = data.drop (i + (k + 1)) := by
          rw [hset, List.drop_append_eq_append_drop, hti,
            List.drop_eq_nil_of_le (by rw [hti]; omega), List.nil_append,
            show i + 1 + k - i = k + 1 by omega, List.drop_succ_cons, List.drop_drop]
          congr 1; omega
        rw [e1, e2, show i + 1 + k = i + (k + 1) by omega]
        simp

/-- Function `uart_read` on a queue that holds at least `n` unread bytes, for any `n`: the
count comes back through the `int32_t` return type. -/
theorem uart_read_buffered (fi : FifoInsert) (fuel : Nat) (desc : uart_desc) (hw : Hw)
    (data : List Nat) (n : Nat)
    (hq : QueueOk desc.extra) (hn : n ≤ (unread desc.extra).length) (hd : n ≤ data.length) :
    ∃ x1 : xil_uart_desc,
      uart_read fi fuel desc hw data n
        = some (wrapSigned 32 n, { desc with extra := x1 }, hw,
            (unread desc.extra).take n ++ data.drop n) ∧
      unread x1 = (unread desc.extra).drop n ∧ QueueOk x1 ∧ Advanced desc.extra x1 n := by
  obtain ⟨x1, hu, hq1, ha, hloop⟩ :=
    uart_read_loop_first fi fuel hw n 0 desc data hq hn (by omega)
  refine ⟨x1, ?_, hu, hq1, ha⟩
  have h := hloop 0
  simp only [Nat.add_zero, Nat.zero_add, List.take_zero, List.nil_append] at h
  simp only [uart_read, h, uart_read_loop]

theorem demoDesc_QueueOk (pending : Nat) : QueueOk (demoDesc pending).extra := by
  constructor
  · intro e he
    simp only [demoDesc, List.mem_cons, List.mem_singleton, List.not_mem_nil, or_false] at he
    rcases he with rfl | rfl <;> simp
  · intro head next h
    simp only [demoDesc] at h
    cases h
    simp [demoDesc]

theorem bigDesc_QueueOk : QueueOk bigDesc.extra := by
  constructor
  · intro e he
    simp only [bigDesc, List.mem_singleton] at he
    subst he
    simp only [List.length_replicate]
    norm_num
  · intro head next h
    simp only [bigDesc] at h
    cases h
    simp only [bigDesc]
    norm_num

theorem bigDesc_unread_length : (unread bigDesc.extra).length = 2147483648 := by
  simp only [unread, bigDesc, List.take_replicate, List.drop_zero, List.map_nil,
    List.flatten_nil, List.append_nil, List.length_replicate, Nat.min_self]

/-- C4, as stated, fails once the count does not fit the `int32_t` return type: with `2^31`
bytes buffered, `uart_read` of `n = 2^31` delivers them and returns `-2147483648`. -/
theorem uart_read_count_wraps :
    (uart_read fifo_insert_ok 0 bigDesc demoHw (List.replicate 2147483648 0) 2147483648).map
      (fun r => r.1) = some (-2147483648) := by
  obtain ⟨x1, h, _⟩ := uart_read_buffered fifo_insert_ok 0 bigDesc demoHw
    (List.replicate 2147483648 0) 2147483648 bigDesc_QueueOk
    (by rw [bigDesc_unread_length]) (by rw [List.length_replicate])
  rw [h]
  simp only [Option.map_some']
  congr 1

/-- C4, amended. For every queue made of nodes that each hold at least one byte, with the
read cursor inside the head node, and every `n < 2^31` not larger than the number of unread
bytes, `uart_read(desc, data, n)` returns `n`, fills `data[0..n)` with the first `n` unread
bytes in node order, removes the head nodes that were used up (the cursor restarting at 0
at each removal), and leaves exactly the remaining unread bytes in the queue; the hardware
is not touched and no wait is needed, whatever the fuel. -/
theorem uart_read_in_order (fi : FifoInsert) (fuel : Nat) (desc : uart_desc) (hw : Hw)
    (data : List Nat) (n : Nat)
    (hq : QueueOk desc.extra) (hn : n ≤ (unread desc.extra).length) (hd : n ≤ data.length)
    (h31 : n < 2 ^ 31) :
    ∃ x1 : xil_uart_desc,
      uart_read fi fuel desc hw data n
        = some ((n : Int), { desc with extra := x1 }, hw,
            (unread desc.extra).take n ++ data.drop n) ∧
      unread x1 = (unread desc.extra).drop n ∧ QueueOk x1 ∧ Advanced desc.extra x1 n := by
  obtain ⟨x1, h, hu, hq1, ha⟩ := uart_read_buffered fi fuel desc hw data n hq hn hd
  have hw32 : wrapSigned 32 (n : Int) = (n : Int) :=
    wrapSigned_of_isInt32 (by unfold isInt32; norm_num at h31 ⊢; omega)
  rw [hw32] at h
  exact ⟨x1, h, hu, hq1, ha⟩

/-- Witness of C4: the queue built from `[A, B, C]` then `[D, E]`, read with `n = 5`: the five bytes in
order, and an empty queue. -/
theorem uart_read_in_order_witness :
    (uart_read fifo_insert_ok 0 (demoDesc 0) demoHw [0, 0, 0, 0, 0, 0] 5).map
        (fun r => (r.1, r.2.2.2)) = some (5, [65, 66, 67, 68, 69, 0]) ∧
    (uart_read fifo_insert_ok 0 (demoDesc 0) demoHw [0, 0, 0, 0, 0, 0] 5).map
        (fun r => unread r.2.1.extra) = some [] := by
  obtain ⟨x1, h, hu, _, _⟩ := uart_read_in_order fifo_insert_ok 0 (demoDesc 0) demoHw
    [0, 0, 0, 0, 0, 0] 5 (demoDesc_QueueOk 0) (by decide) (by decide) (by decide)
  rw [h]
  exact ⟨rfl, congrArg some hu⟩

/-! ## UART receive-drain failure -/

theorem fifo_nil_of_unread_nil (x : xil_uart_desc) (hq : QueueOk x) (hu : unread x = []) :
    x.fifo = [] := by
  cases hf : x.fifo with
  | nil => rfl
  | cons head next =>
    exfalso
    have hoff := hq.2 head next hf
    have hl := (hq.1 head (by rw [hf]; exact List.mem_cons_self _ _)).2.1
    have := congrArg List.length hu
    simp [unread, hf] at this
    omega

/-- C10. In a state with a pending count `p > 0` where `fifo_insert` fails with the negative
code `e`: `uart_receive` returns `e` and leaves the pending count at `p`; and `uart_read`
of `n` bytes from a queue holding `k < n` unread bytes, given at least one round of wait,
delivers these `k` bytes, returns `e`, stores nothing further into `data`, keeps the pending
count and arms no new receive. -/
theorem uart_insert_failure (fi : FifoInsert) (fuel : Nat) (desc : uart_desc) (hw : Hw)
    (data : List Nat) (n : Nat) (e : Int)
    (hp : 0 < desc.extra.bytes_reveived) (he : e < 0) :
    ((fi desc.extra.fifo desc.extra.buff desc.extra.bytes_reveived).1 = e →
      (uart_receive fi desc hw).1 = e ∧
      (uart_receive fi desc hw).2.1.extra.bytes_reveived = desc.extra.bytes_reveived ∧
      (uart_receive fi desc hw).2.2.recv_armed = hw.recv_armed) ∧
    (QueueOk desc.extra → (unread desc.extra).length < n →
      (unread desc.extra).length ≤ data.length → 0 < fuel →
      (fi [] desc.extra.buff desc.extra.bytes_reveived).1 = e →
      ∃ (desc1 : uart_desc) (hw1 : Hw),
        uart_read fi fuel desc hw data n
          = some (e, desc1, hw1,
              unread desc.extra ++ data.drop (unread desc.extra).length) ∧
        desc1.extra.bytes_reveived = desc.extra.bytes_reveived ∧
        hw1.recv_armed = hw.recv_armed) := by
  constructor
  · intro hfi
    have hlt : (fi desc.extra.fifo desc.extra.buff desc.extra.bytes_reveived).1 < 0 := by
      rw [hfi]; exact he
    simp only [uart_receive, gt_iff_lt, hp, if_true, hfi, he, irq_source_disable, and_self]
  · intro hq hk hd hfuel hfi
    obtain ⟨x1, hu, hq1, ⟨j, e1, _⟩, hloop⟩ :=
      uart_read_loop_first fi fuel hw (unread desc.extra).length 0 desc data hq
        (le_refl _) (by omega)
    have hnil : x1.fifo = [] :=
      fifo_nil_of_unread_nil x1 hq1 (by rw [hu]; simp)
    have hb : x1.buff = desc.extra.buff := by rw [e1]
    have hpend : x1.bytes_reveived = desc.extra.bytes_reveived := by rw [e1]
    obtain ⟨m, hm⟩ : ∃ m, n = (unread desc.extra).length + (m + 1) :=
      ⟨n - (unread desc.extra).length - 1, by omega⟩
    obtain ⟨f, hf⟩ : ∃ f, fuel = f + 1 := ⟨fuel - 1, by omega⟩
    have hlt : (fi [] desc.extra.buff desc.extra.bytes_reveived).1 < 0 := by
      rw [hfi]; exact he
    have hrecv : uart_receive fi { desc with extra := x1 } hw
        = (e, { desc with extra := { x1 with fifo :=
            (fi [] desc.extra.buff desc.extra.bytes_reveived).2 } },
            irq_source_disable hw) := by
      simp only [uart_receive, gt_iff_lt, hpend, hp, if_true, hnil, hb, hfi, he]
    have hbyte : uart_read_byte fi (f + 1) { desc with extra := x1 } hw
        = some (e, none, { desc with extra := { x1 with fifo :=
            (fi [] desc.extra.buff desc.extra.bytes_reveived).2 } },
            irq_source_disable hw) := by
      simp only [uart_read_byte, uart_read_byte_wait, hnil, List.isEmpty_nil, if_true, hrecv, he]
    refine ⟨{ desc with extra := { x1 with fifo :=
        (fi [] desc.extra.buff desc.extra.bytes_reveived).2 } },
      irq_source_disable hw, ?_, hpend, rfl⟩
    have h := hloop (m + 1)
    simp only [Nat.zero_add, List.take_zero, List.nil_append, List.take_length] at h
    rw [uart_read, hm, h, hf, uart_read_loop, hbyte]
    simp only [he, if_true]

/-- Witness of C10: the failure path on the queue `[A, B, C]`, `[D, E]` with 2 bytes pending and an append
that fails with `-12`: a read of 7 bytes delivers 5 and returns `-12`. -/
theorem uart_insert_failure_witness :
    (uart_receive (fifo_insert_fail (-12)) (demoDesc 2) demoHw).1 = -12 ∧
    (uart_receive (fifo_insert_fail (-12)) (demoDesc 2) demoHw).2.1.extra.bytes_reveived = 2 ∧
    (uart_read (fifo_insert_fail (-12)) 1 (demoDesc 2) demoHw [0, 0, 0, 0, 0, 0, 0] 7).map
        (fun r => (r.1, r.2.2.2, r.2.1.extra.bytes_reveived, r.2.2.1.recv_armed))
      = some (-12, [65, 66, 67, 68, 69, 0, 0], 2, 1) := by
  have h := uart_insert_failure (fifo_insert_fail (-12)) 1 (demoDesc 2) demoHw
    [0, 0, 0, 0, 0, 0, 0] 7 (-12) (by decide) (by decide)
  obtain ⟨h1, h2, _⟩ := h.1 rfl
  obtain ⟨desc1, hw1, h3, h4, h5⟩ :=
    h.2 (demoDesc_QueueOk 2) (by decide) (by decide) (by decide) rfl
  refine ⟨h1, h2, ?_⟩
  rw [h3]
  simp only [Option.map_some', h4, h5]
  rfl

/-! ## UART initialisation -/

/-- C9. Whatever the outcomes of the configuration steps: `uart_init` returns `SUCCESS`
exactly when every step succeeded; it then stores the new descriptor in `*desc` and arms
the first receive; otherwise it returns `FAILURE`, leaves `*desc` as it was and arms no
receive. -/
theorem uart_init_all_or_nothing (BUFF_LENGTH : Nat) (steps : InitSteps)
    (desc : Option uart_desc) (par : uart_init_par) (hw : Hw) :
    ((uart_init BUFF_LENGTH steps desc par hw).1 = SUCCESS ↔ StepsOk steps) ∧
    (StepsOk steps →
      (uart_init BUFF_LENGTH steps desc par hw).2.1 = some (newDescriptor BUFF_LENGTH par) ∧
      (uart_init BUFF_LENGTH steps desc par hw).2.2.recv_armed = hw.recv_armed + 1) ∧
    (¬ StepsOk steps →
      (uart_init BUFF_LENGTH steps desc par hw).1 = FAILURE ∧
      (uart_init BUFF_LENGTH steps desc par hw).2.1 = desc ∧
      (uart_init BUFF_LENGTH steps desc par hw).2.2.recv_armed = hw.recv_armed) := by
  obtain ⟨config, c1, c2, c3, c4, pf⟩ := steps
  simp only [uart_init, uart_irq_init, StepsOk, SUCCESS, FAILURE, XST_SUCCESS, XUartPs_Recv,
    irq_source_enable]
  cases config with
  | none => simp
  | some base =>
    by_cases h1 : c1 = 0
    · by_cases h2 : c2 = 0
      · by_cases h3 : c3 < 0
        · have h3n : c3 ≠ 0 := by omega
          have h3' : ¬ (0 ≤ c3) := by omega
          simp [h1, h2, h3, h3n, h3']
        · by_cases h4 : c4 < 0
          · have h4n : c4 ≠ 0 := by omega
            have h4' : ¬ (0 ≤ c4) := by omega
            simp [h1, h2, h3, h4, h4n, h4']
          · have h3' : 0 ≤ c3 := by omega
            have h4' : 0 ≤ c4 := by omega
            simp [h1, h2, h3, h4, h3', h4']
      · simp [h1, h2]
    · simp [h1]

/-- Witness of C9: initialisation on a full success, and with `irq_source_enable` failing. -/
theorem uart_init_all_or_nothing_witness :
    (uart_init 16 ⟨some 0, 0, 0, 0, 0, 1⟩ none ⟨115200, 0, 54⟩ coldHw).2.1
        = some (newDescriptor 16 ⟨115200, 0, 54⟩) ∧
    (uart_init 16 ⟨some 0, 0, 0, 0, 0, 1⟩ none ⟨115200, 0, 54⟩ coldHw).2.2.recv_armed = 1 ∧
    (uart_init 16 ⟨some 0, 0, 0, 0, -1, 1⟩ none ⟨115200, 0, 54⟩ coldHw).1 = FAILURE ∧
    (uart_init 16 ⟨some 0, 0, 0, 0, -1, 1⟩ none ⟨115200, 0, 54⟩ coldHw).2.1 = none ∧
    (uart_init 16 ⟨some 0, 0, 0, 0, -1, 1⟩ none ⟨115200, 0, 54⟩ coldHw).2.2.recv_armed = 0 :=
  ⟨((uart_init_all_or_nothing 16 ⟨some 0, 0, 0, 0, 0, 1⟩ none ⟨115200, 0, 54⟩ coldHw).2.1
      (by decide)).1,
   ((uart_init_all_or_nothing 16 ⟨some 0, 0, 0, 0, 0, 1⟩ none ⟨115200, 0, 54⟩ coldHw).2.1
      (by decide)).2,
   ((uart_init_all_or_nothing 16 ⟨some 0, 0, 0, 0, -1, 1⟩ none ⟨115200, 0, 54⟩ coldHw).2.2
      (by decide)).1,
   ((uart_init_all_or_nothing 16 ⟨some 0, 0, 0, 0, -1, 1⟩ none ⟨115200, 0, 54⟩ coldHw).2.2
      (by decide)).2.1,
   ((uart_init_all_or_nothing 16 ⟨some 0, 0, 0, 0, -1, 1⟩ none ⟨115200, 0, 54⟩ coldHw).2.2
      (by decide)).2.2⟩

/-! ## UART receive-drain: interrupt gating -/

/-- C11. The three exit paths of `uart_receive`, the interrupt source being a flag of the
state. With a pending count of 0 nothing changes and `SUCCESS` is returned. With a pending
count above 0 and an append that does not fail, `SUCCESS` is returned, the queue is the one
the append left, the pending count is 0, one more receive is armed and the interrupt source
is enabled. With a pending count above 0 and an append that fails, its status is returned,
the pending count is kept, the interrupt source is left disabled and no receive is armed. -/
theorem uart_receive_gating (fi : FifoInsert) (desc : uart_desc) (hw : Hw) :
    (desc.extra.bytes_reveived = 0 → uart_receive fi desc hw = (SUCCESS, desc, hw)) ∧
    (0 < desc.extra.bytes_reveived →
      ¬ (fi desc.extra.fifo desc.extra.buff desc.extra.bytes_reveived).1 < 0 →
      uart_receive fi desc hw
        = (SUCCESS,
            { desc with extra := { desc.extra with
                fifo := (fi desc.extra.fifo desc.extra.buff desc.extra.bytes_reveived).2,
                bytes_reveived := 0 } },
            { hw with irq_enabled := true, recv_armed := hw.recv_armed + 1 })) ∧
    (0 < desc.extra.bytes_reveived →
      (fi desc.extra.fifo desc.extra.buff desc.extra.bytes_reveived).1 < 0 →
      uart_receive fi desc hw
        = ((fi desc.extra.fifo desc.extra.buff desc.extra.bytes_reveived).1,
            { desc with extra := { desc.extra with
                fifo := (fi desc.extra.fifo desc.extra.buff desc.extra.bytes_reveived).2 } },
            { hw with irq_enabled := false })) := by
  refine ⟨fun h0 => ?_, fun hp hok => ?_, fun hp hfail => ?_⟩
  · simp only [uart_receive, h0, gt_iff_lt, Nat.lt_irrefl, if_false]
  · simp only [uart_receive, gt_iff_lt, hp, if_true, hok, if_false, irq_source_disable,
      XUartPs_Recv, irq_source_enable]
  · simp only [uart_receive, gt_iff_lt, hp, if_true, hfail, irq_source_disable]

/-- Witness of C11: on the queue `[A, B, C]`, `[D, E]` with the interrupt source enabled
and one receive armed: nothing pending; 2 bytes pending and an append that succeeds; 2 bytes
pending and an append that fails with `-12`. -/
theorem uart_receive_gating_witness :
    uart_receive fifo_insert_ok (demoDesc 0) demoHw = (SUCCESS, demoDesc 0, demoHw) ∧
    ((uart_receive fifo_insert_ok (demoDesc 2) demoHw).1 = SUCCESS ∧
      (uart_receive fifo_insert_ok (demoDesc 2) demoHw).2.1.extra.bytes_reveived = 0 ∧
      (uart_receive fifo_insert_ok (demoDesc 2) demoHw).2.1.extra.fifo
        = [⟨[65, 66, 67], 3⟩, ⟨[68, 69], 2⟩, ⟨[70, 71], 2⟩] ∧
      (uart_receive fifo_insert_ok (demoDesc 2) demoHw).2.2.recv_armed = 2 ∧
      (uart_receive fifo_insert_ok (demoDesc 2) demoHw).2.2.irq_enabled = true) ∧
    ((uart_receive (fifo_insert_fail (-12)) (demoDesc 2) demoHw).1 = -12 ∧
      (uart_receive (fifo_insert_fail (-12)) (demoDesc 2) demoHw).2.2.irq_enabled = false ∧
      (uart_receive (fifo_insert_fail (-12)) (demoDesc 2) demoHw).2.2.recv_armed = 1) := by
  have h0 := (uart_receive_gating fifo_insert_ok (demoDesc 0) demoHw).1 rfl
  have h1 := (uart_receive_gating fifo_insert_ok (demoDesc 2) demoHw).2.1
    (by decide) (by decide)
  have h2 := (uart_receive_gating (fifo_insert_fail (-12)) (demoDesc 2) demoHw).2.2
    (by decide) (by decide)
  refine ⟨h0, ?_, ?_⟩
  · rw [h1]; exact ⟨rfl, rfl, rfl, rfl, rfl⟩
  · rw [h2]; exact ⟨rfl, rfl, rfl⟩

end NoOS
